import Mathlib

/-!
# MSaaS PubSub: the Game of Life publisher and subscriber

A shallow embedding of `PubSub/PubGlife/PubGlife.cpp` (the publisher: the
toroidal neighbour count `count_living_cells` and the frame encoder
`drawSpace`) and of `PubSub/SubGlife/SubGlife.c` (the subscriber:
`SubscribeCallback`), followed by theorems about them.

Conventions of the embedding

* C `int` values are `Int`; the C remainder `%` is `Int.tmod` (truncation
  towards zero); `int` arithmetic that can leave the 32-bit range (`life++`,
  the result of `atoi`, the products and sums of the drawing code) wraps
  explicitly.
* A C string is the `List Char` of the bytes before its terminating NUL.
* A pointer into a string is an offset; a search that returns `NULL`
  returns `none`, and using such a pointer makes the enclosing function
  return `none` (the process has crashed).
* The OpenGL calls of the publisher only paint its own window and are left
  out; the OpenGL calls of the subscriber act on a two-buffer draw surface.
-/

set_option autoImplicit false

namespace MSaaS

/-! ## The cell space (PubGlife.cpp, lines 40-44) -/

/-- The life status of a cell (`Phase` of `Cell.h`). -/
inductive Phase where
  | Dead
  | Alive
  deriving DecidableEq, Repr

/-- Cellspace width, `#define WIDTH 100`. -/
def WIDTH : Nat := 100

/-- Cellspace height, `#define HEIGHT 100`. -/
def HEIGHT : Nat := 100

/-- The global `Phase phase[WIDTH][HEIGHT]`: entry `phase x y` with
`x < WIDTH` and `y < HEIGHT` is the array slot `phase[x][y]`.  Entries
outside that rectangle are not storage; no definition below reads them. -/
abbrev Grid := Nat → Nat → Phase

/-- The array read `phase[xx][yy]` with `int` indices: `none` when an index
is outside the array (the out-of-range branch). -/
def readPhase (phase : Grid) (xx yy : Int) : Option Phase :=
  if 0 ≤ xx ∧ xx < (WIDTH : Int) ∧ 0 ≤ yy ∧ yy < (HEIGHT : Int) then
    some (phase xx.toNat yy.toNat)
  else
    none

/-! ## count_living_cells (PubGlife.cpp, lines 106-126) -/

/-- Lines 113-118: `xx = (x + dx) % WIDTH; if (xx < 0) xx = WIDTH - 1;`
(and the same for `yy`), for one coordinate and its extent `n`. -/
def wrapIndex (v d : Int) (n : Nat) : Int :=
  let r := Int.tmod (v + d) (n : Int)
  if r < 0 then (n : Int) - 1 else r

/-- The pair `(xx, yy)` with which the loop body indexes `phase` for the
offset `(dx, dy)`. -/
def neighbourIndex (x y dx dy : Int) : Int × Int :=
  (wrapIndex x dx WIDTH, wrapIndex y dy HEIGHT)

/-- The loop body, lines 113-122: read `phase[xx][yy]` and increment
`nalive` when that cell is alive and is not `(x, y)` itself. -/
def countStep (phase : Grid) (x y : Int) (nalive : Int) (dx dy : Int) : Option Int :=
  let xx := (neighbourIndex x y dx dy).1
  let yy := (neighbourIndex x y dx dy).2
  match readPhase phase xx yy with
  | none => none
  | some p =>
    if p = Phase.Alive ∧ ¬(xx = x ∧ yy = y) then some (nalive + 1) else some nalive

/-- The offsets in the order the two nested `for` loops visit them
(`dx` outer, `dy` inner, each from -1 to 1). -/
def offsets : List (Int × Int) :=
  [(-1, -1), (-1, 0), (-1, 1), (0, -1), (0, 0), (0, 1), (1, -1), (1, 0), (1, 1)]

/-- Run the loop body over a list of offsets, threading `nalive`. -/
def countLoop (phase : Grid) (x y : Int) : List (Int × Int) → Int → Option Int
  | [], nalive => some nalive
  | (dx, dy) :: rest, nalive =>
    match countStep phase x y nalive dx dy with
    | none => none
    | some n => countLoop phase x y rest n

/-- `short int count_living_cells(int x, int y)`; `none` if an array read
were out of range.  The function only reads `phase`: it has no store. -/
def count_living_cells (phase : Grid) (x y : Int) : Option Int :=
  countLoop phase x y offsets 0

/-- A loop offset component: -1, 0 or 1. -/
def unitOffset (d : Int) : Prop := d = -1 ∨ d = 0 ∨ d = 1

/-- An offset other than `(0, 0)`. -/
def offCentre (d : Int × Int) : Bool := !(d.1 == 0 && d.2 == 0)

/-- The eight neighbour offsets: `{-1,0,1}^2` without `(0,0)`. -/
def neighbourOffsets : List (Int × Int) :=
  [(-1, -1), (-1, 0), (-1, 1), (0, -1), (0, 1), (1, -1), (1, 0), (1, 1)]

/-- The eight toroidal neighbour positions of `(x, y)`, with the
mathematical (non-negative) remainder. -/
def torusNeighbours (x y : Int) : List (Int × Int) :=
  neighbourOffsets.map (fun d => ((x + d.1) % (WIDTH : Int), (y + d.2) % (HEIGHT : Int)))

/-- Number of positions of a list that hold an `Alive` cell. -/
def aliveAmong (phase : Grid) (ps : List (Int × Int)) : Nat :=
  ps.countP (fun p => decide (readPhase phase p.1 p.2 = some Phase.Alive))

/-- A grid whose only living cell is `(cx, cy)`. -/
def singleCell (cx cy : Nat) : Grid :=
  fun x y => if x = cx ∧ y = cy then Phase.Alive else Phase.Dead

/-- The grid with no living cell. -/
def allDead : Grid := fun _ _ => Phase.Dead

/-! ## C strings and the library calls the two programs make on them -/

/-- A C string: the bytes before the terminating NUL. -/
abbrev CString := List Char

/-- The terminator byte. -/
def NUL : Char := Char.ofNat 0

/-- The C string held in a byte buffer: the bytes before the first NUL. -/
def c_str (bytes : List Char) : CString :=
  bytes.takeWhile (fun c => c != NUL)

/-- `strncmp(s1, s2, n)`: compare at most `n` bytes; the end of a string
compares as the byte 0. -/
def strncmp : CString → CString → Nat → Int
  | _, _, 0 => 0
  | [], [], _ + 1 => 0
  | [], b :: _, _ + 1 => 0 - (b.toNat : Int)
  | a :: _, [], _ + 1 => (a.toNat : Int)
  | a :: s1, b :: s2, n + 1 =>
    if a = b then strncmp s1 s2 n else (a.toNat : Int) - (b.toNat : Int)

/-- `strcmp(s1, s2)`. -/
def strcmp : CString → CString → Int
  | [], [] => 0
  | [], b :: _ => 0 - (b.toNat : Int)
  | a :: _, [] => (a.toNat : Int)
  | a :: s1, b :: s2 =>
    if a = b then strcmp s1 s2 else (a.toNat : Int) - (b.toNat : Int)

/-- `strstr(haystack, needle)`: the offset of the first occurrence of
`needle`, or `none` for `NULL`. -/
def strstr : CString → CString → Option Nat
  | [], needle => if needle = [] then some 0 else none
  | c :: rest, needle =>
    if needle.isPrefixOf (c :: rest) then some 0
    else (strstr rest needle).map (fun i => i + 1)

/-- `index(s, c)` for a byte `c` other than NUL: the offset of the first
`c` in `s`, or `none` for `NULL`. -/
def index : CString → Char → Option Nat
  | [], _ => none
  | a :: rest, c => if a = c then some 0 else (index rest c).map (fun i => i + 1)

/-- The range of a C `int`. -/
def isInt32 (v : Int) : Prop := -2147483648 ≤ v ∧ v ≤ 2147483647

/-- The value of an `int` after an arithmetic step in two's complement. -/
def wrapInt32 (v : Int) : Int := (v + 2147483648) % 4294967296 - 2147483648

/-- `isspace` in the C locale. -/
def isspace (c : Char) : Bool :=
  c == ' ' || c == '\t' || c == '\n' || c == Char.ofNat 11 || c == Char.ofNat 12 || c == '\r'

/-- The digit loop of `atoi`: accumulate decimal digits until the first
byte that is not a digit. -/
def atoiDigits : CString → Int → Int
  | [], acc => acc
  | c :: rest, acc =>
    if c.isDigit then atoiDigits rest (10 * acc + ((c.toNat : Int) - 48)) else acc

/-- The number a decimal text denotes: skip white space, read an optional
sign, then the digits. -/
def parseDecimal (s : CString) : Int :=
  match s.dropWhile isspace with
  | [] => 0
  | c :: rest =>
    if c = '-' then - atoiDigits rest 0
    else if c = '+' then atoiDigits rest 0
    else atoiDigits (c :: rest) 0

/-- The value `strtol` returns for a number: the number itself, or
`LONG_MAX` / `LONG_MIN` (a `long` of 64 bits) when it lies beyond them. -/
def clampLong (v : Int) : Int :=
  if v > 9223372036854775807 then 9223372036854775807
  else if v < -9223372036854775808 then -9223372036854775808
  else v

/-- `atoi(s)`, which is `(int) strtol(s, NULL, 10)`: the number the text
denotes, held to the range of `long` and then cut to the 32 bits of an `int`. -/
def atoi (s : CString) : Int := wrapInt32 (clampLong (parseDecimal s))

/-- The text `printf` produces for `%i`. -/
def fmtInt : Int → CString
  | Int.ofNat n => Nat.toDigits 10 n
  | Int.negSucc n => '-' :: Nat.toDigits 10 (n + 1)

/-- A byte of a decimal text: a digit or the minus sign. -/
def decimalByte (c : Char) : Prop := c.isDigit = true ∨ c = '-'

/-- Line 85 of PubGlife.cpp: the text `sprintf(ioBuff, "data %i %i Alive", x, y)`
leaves in the buffer. -/
def sprintf_data (x y : Int) : CString :=
  "data ".toList ++ fmtInt x ++ ' ' :: fmtInt y ++ " Alive".toList

/-! ## The publisher: drawSpace (PubGlife.cpp, lines 59-98) -/

/-- The statics the publisher's `drawSpace` reads and writes, and whether it
has asked the GLUT main loop to stop. -/
structure PubState where
  /-- `static bool init` (line 61). -/
  init : Bool
  /-- `static int life` (line 52). -/
  life : Int
  /-- `static int lifeSpan` (line 53, set by the `-l` option). -/
  lifeSpan : Int
  /-- `glutLeaveMainLoop()` has been called (line 95). -/
  leaving : Bool
  deriving DecidableEq, Repr

/-- The publisher's statics when `main` enters the main loop. -/
def PubState.start (lifeSpan : Int) : PubState :=
  { init := true, life := 0, lifeSpan := lifeSpan, leaving := false }

/-- The message of `redisCommand(c, "PUBLISH sscpactest clear")`. -/
def clearMsg : CString := "clear".toList

/-- The message of `redisCommand(c, "PUBLISH sscpactest swap")`. -/
def swapMsg : CString := "swap".toList

/-- The message of `redisCommand(c, "PUBLISH sscpactest _EOF_")`. -/
def eofMsg : CString := "_EOF_".toList

/-- The cells in the order the loops of lines 76-78 visit them: `x` outer,
`y` inner. -/
def scanOrder : List (Nat × Nat) :=
  (List.range WIDTH).flatMap (fun x => (List.range HEIGHT).map (fun y => (x, y)))

/-- Lines 80-86: the contents of `ioBuff` after the `if` statement for the
cell `c`, given its contents before. -/
def cellBuffer (phase : Grid) (ioBuff : CString) (c : Nat × Nat) : CString :=
  if phase c.1 c.2 = Phase.Alive then sprintf_data (c.1 : Int) (c.2 : Int) else ioBuff

/-- Lines 76-89: for each cell in turn run the `if` statement and then
`redisCommand(c, "PUBLISH sscpactest %s", ioBuff)` (line 87, outside the
`if`); the result lists the texts published. -/
def scanPublish (phase : Grid) : List (Nat × Nat) → CString → List CString
  | [], _ => []
  | c :: rest, ioBuff =>
    cellBuffer phase ioBuff c :: scanPublish phase rest (cellBuffer phase ioBuff c)

/-- Lines 75-90: the messages of one frame, from `clear` through `swap`. -/
def frameMsgs (phase : Grid) (ioBuff : CString) : List CString :=
  clearMsg :: scanPublish phase scanOrder ioBuff ++ [swapMsg]

/-- The messages published between the `clear` and the `swap` of a frame. -/
def frameData (phase : Grid) (ioBuff : CString) : List CString :=
  scanPublish phase scanOrder ioBuff

/-- `void drawSpace()`: the messages it publishes, in order, and the statics
afterwards.  `ioBuff` is what the uninitialised `char ioBuff[1024]` (line
62) holds on entry, read as a C string: C leaves it indeterminate. -/
def drawSpace (phase : Grid) (ioBuff : CString) (s : PubState) : List CString × PubState :=
  let s1 : PubState := { s with init := false, life := wrapInt32 (s.life + 1) }
  if s.life > s.lifeSpan then
    (frameMsgs phase ioBuff ++ [eofMsg], { s1 with leaving := true })
  else
    (frameMsgs phase ioBuff, s1)

/-- The statics after the first `n` calls of `drawSpace`; call `k` (from 0)
draws `grids k` and finds `bufs k` in `ioBuff`. -/
def pubStateAfter (grids : Nat → Grid) (bufs : Nat → CString) (lifeSpan : Int) :
    Nat → PubState
  | 0 => PubState.start lifeSpan
  | n + 1 =>
    (drawSpace (grids n) (bufs n) (pubStateAfter grids bufs lifeSpan n)).2

/-- The messages published by call number `n` of `drawSpace`, counted from 1. -/
def nthCall (grids : Nat → Grid) (bufs : Nat → CString) (lifeSpan : Int) (n : Nat) :
    List CString :=
  (drawSpace (grids (n - 1)) (bufs (n - 1)) (pubStateAfter grids bufs lifeSpan (n - 1))).1

/-- The GLUT main loop as the publisher uses it: `drawSpace` is called again
and again (at the end of every `simulateSpace`) until it has called
`glutLeaveMainLoop`.  `fuel` bounds the number of calls; `k` is the number of
calls already made.  The result lists every message of the run. -/
def publisherRun (grids : Nat → Grid) (bufs : Nat → CString) :
    Nat → Nat → PubState → List CString
  | 0, _, _ => []
  | fuel + 1, k, s =>
    if s.leaving then []
    else
      (drawSpace (grids k) (bufs k) s).1 ++
        publisherRun grids bufs fuel (k + 1) (drawSpace (grids k) (bufs k) s).2

/-- The cell whose message `ioBuff` holds after each scan position, when it
held the message of the cell `b` before the scan: the latest living cell at or
before that position, and `b` until the first living cell. -/
def latestAlive (phase : Grid) : List (Nat × Nat) → Nat × Nat → List (Nat × Nat)
  | [], _ => []
  | c :: rest, b =>
    (if phase c.1 c.2 = Phase.Alive then c else b) ::
      latestAlive phase rest (if phase c.1 c.2 = Phase.Alive then c else b)

/-- The message `sprintf` writes for a cell of the grid. -/
def cellMsg (c : Nat × Nat) : CString := sprintf_data (c.1 : Int) (c.2 : Int)

/-! ## The subscriber: SubscribeCallback (SubGlife.c, lines 47-133) -/

/-- A rectangle given to `glRecti(x1, y1, x2, y2)`. -/
structure Rect where
  x1 : Int
  y1 : Int
  x2 : Int
  y2 : Int
  deriving DecidableEq, Repr

/-- `#define CELL_SIZE 6`. -/
def CELL_SIZE : Int := 6

/-- The rectangle that displays the cell `(x, y)` (lines 109-111). -/
def cellRect (x y : Int) : Rect :=
  { x1 := CELL_SIZE * x, y1 := CELL_SIZE * y,
    x2 := CELL_SIZE * x + CELL_SIZE, y2 := CELL_SIZE * y + CELL_SIZE }

/-- What the subscriber's callback acts on: its static `init`, the
double-buffered draw surface, and the disconnects issued so far. -/
structure SubState where
  /-- `static int init` (line 59). -/
  init : Bool
  /-- The rectangles drawn into the back buffer since it was last cleared,
  latest first. -/
  back : List Rect
  /-- The rectangles of the buffer on display. -/
  front : List Rect
  /-- The number of `redisAsyncDisconnect` calls made. -/
  disconnects : Nat
  deriving DecidableEq, Repr

/-- The subscriber before its first callback. -/
def SubState.start : SubState :=
  { init := true, back := [], front := [], disconnects := 0 }

/-- `glClear(GL_COLOR_BUFFER_BIT | GL_DEPTH_BUFFER_BIT)`: empty the back buffer. -/
def glClear (s : SubState) : SubState := { s with back := [] }

/-- `glRecti(x1, y1, x2, y2)`: draw a rectangle into the back buffer. -/
def glRecti (x1 y1 x2 y2 : Int) (s : SubState) : SubState :=
  { s with back := { x1 := x1, y1 := y1, x2 := x2, y2 := y2 } :: s.back }

/-- `glutSwapBuffers()`: exchange the back buffer and the one on display. -/
def glutSwapBuffers (s : SubState) : SubState :=
  { s with back := s.front, front := s.back }

/-- `redisAsyncDisconnect(c)`. -/
def redisAsyncDisconnect (s : SubState) : SubState :=
  { s with disconnects := s.disconnects + 1 }

/-- The cell `(x, y)` is drawn in a buffer. -/
def cellDrawn (buf : List Rect) (x y : Int) : Prop := cellRect x y ∈ buf

instance (buf : List Rect) (x y : Int) : Decidable (cellDrawn buf x y) := by
  unfold cellDrawn
  infer_instance

/-- Lines 101-111, the body of `if (strstr(rp->str, "Alive"))`.  Each `index`
result is used without a test: `index(rp->str, ' ') + 1` is searched next,
and the two `endnum` are written through, so a `NULL` among them is a crash
(`none`).  The `int` products and sums wrap. -/
def plotData (str : CString) (s : SubState) : Option SubState :=
  match index str ' ' with
  | none => none
  | some i =>
    let startnum := str.drop (i + 1)
    match index startnum ' ' with
    | none => none
    | some j =>
      let x := atoi (startnum.take j)
      let startnum2 := startnum.drop (j + 1)
      match index startnum2 ' ' with
      | none => none
      | some k =>
        let y := atoi (startnum2.take k)
        let wx := wrapInt32 (CELL_SIZE * x)
        let wy := wrapInt32 (CELL_SIZE * y)
        some (glRecti wx wy (wrapInt32 (wx + CELL_SIZE)) (wrapInt32 (wy + CELL_SIZE)) s)

/-- Lines 97-125: the `if` / `else if` chain on one element's string.  The
state is the draw surface together with the local `exitSubPub`. -/
def handleStr (str : CString) (st : SubState × Bool) : Option (SubState × Bool) :=
  if strncmp "data".toList str 4 = 0 then
    if (strstr str "Alive".toList).isSome then
      (plotData str st.1).map (fun s => (s, st.2))
    else some st
  else if strncmp "swap".toList str 4 = 0 then some (glutSwapBuffers st.1, st.2)
  else if strncmp "clear".toList str 5 = 0 then some (glClear st.1, st.2)
  else if strcmp "_EOF_".toList str = 0 then some (st.1, true)
  else some st

/-- An element of a reply (a `redisReply` of its own): only its `str`, which
may be `NULL`, is used. -/
structure ReplyElement where
  str : Option (List Char)
  deriving DecidableEq, Repr

/-- The `redisReply` handed to the callback: `element` may be `NULL`, and so
may each of its `elements` entries. -/
structure redisReply where
  element : Option (List (Option ReplyElement))
  deriving DecidableEq, Repr

/-- Lines 90-128: the `for` loop over the elements of the reply. -/
def handleElements : List (Option ReplyElement) → SubState × Bool → Option (SubState × Bool)
  | [], st => some st
  | none :: rest, st => handleElements rest st
  | some rp :: rest, st =>
    match rp.str with
    | none => handleElements rest st
    | some bytes =>
      match handleStr (c_str bytes) st with
      | none => none
      | some st1 => handleElements rest st1

/-- `void SubscribeCallback(redisAsyncContext *c, redisReply *r, void *privdata)`:
the state after the call, or `none` if the call crashed. -/
def SubscribeCallback (r : Option redisReply) (s : SubState) : Option SubState :=
  match r with
  | none => some s
  | some reply =>
    let s0 : SubState := { s with init := false }
    match reply.element with
    | none => some s0
    | some elems =>
      match handleElements elems (s0, false) with
      | none => none
      | some (s1, exitSubPub) =>
        if exitSubPub then some (redisAsyncDisconnect s1) else some s1

/-- The reply in which a published message arrives (comment of lines 71-79):
`"message"`, the channel name, the published text. -/
def pubsubMessage (payload : CString) : redisReply :=
  { element := some [some { str := some "message".toList },
                     some { str := some "sscpactest".toList },
                     some { str := some payload }] }

/-- One published message reaches the subscriber. -/
def deliver (payload : CString) (s : SubState) : Option SubState :=
  SubscribeCallback (some (pubsubMessage payload)) s

/-- A stream of published messages reaches the subscriber, in publish order,
one callback per message. -/
def deliverAll : List CString → SubState → Option SubState
  | [], s => some s
  | m :: rest, s =>
    match deliver m s with
    | none => none
    | some s1 => deliverAll rest s1

/-- A message of the form `data <x> <y> <status>`. -/
def dataMessage (x y : Int) (status : CString) : CString :=
  "data".toList ++ ' ' :: (fmtInt x ++ ' ' :: (fmtInt y ++ ' ' :: status))

/-- A message of the form `data <x> <y>`, with no status token. -/
def dataNoStatus (x y : Int) : CString :=
  "data".toList ++ ' ' :: (fmtInt x ++ ' ' :: fmtInt y)

/-- The callback takes a string for a `data` element and plots it (lines 97
and 99): it starts with `data` and contains `Alive`. -/
def plotted (str : CString) : Prop :=
  "data".toList <+: str ∧ "Alive".toList <:+: str

instance (str : CString) : Decidable (plotted str) := by
  unfold plotted
  infer_instance

/-- A string the callback plots although it has fewer than the three blanks
the plotting code steps over. -/
def malformedData (str : CString) : Prop :=
  plotted str ∧ str.count ' ' < 3

instance (str : CString) : Decidable (malformedData str) := by
  unfold malformedData
  infer_instance

/-- A string none of the four branches of the callback takes. -/
def unrecognized (str : CString) : Prop :=
  ¬ "data".toList <+: str ∧ ¬ "swap".toList <+: str ∧ ¬ "clear".toList <+: str
    ∧ str ≠ "_EOF_".toList

instance (str : CString) : Decidable (unrecognized str) := by
  unfold unrecognized
  infer_instance

/-- The arithmetic of lines 104-111 does not overflow on `v`: `v`,
`CELL_SIZE * v` and `CELL_SIZE * v + CELL_SIZE` fit an `int`. -/
def drawable (v : Int) : Prop :=
  isInt32 v ∧ isInt32 (CELL_SIZE * v) ∧ isInt32 (CELL_SIZE * v + CELL_SIZE)

instance (v : Int) : Decidable (drawable v) := by
  unfold drawable isInt32
  infer_instance

/-- The C string the loop body sees in an element, if the element and its
`str` are not `NULL`. -/
def elemText (e : Option ReplyElement) : Option CString :=
  match e with
  | none => none
  | some rp => rp.str.map c_str

/-- The batch holds a message equal to `_EOF_`. -/
def batchHasEOF (elems : List (Option ReplyElement)) : Bool :=
  elems.any (fun e => decide (elemText e = some eofMsg))

/-- The batch holds a string the callback crashes on. -/
def batchMalformed (elems : List (Option ReplyElement)) : Prop :=
  ∃ e ∈ elems, ∃ str, elemText e = some str ∧ malformedData str

/-- A message the publisher's `sprintf` can have written, for a cell whose
drawing arithmetic does not overflow. -/
def validData (m : CString) : Prop :=
  ∃ x y : Int, drawable x ∧ drawable y ∧ m = sprintf_data x y

/-- What of the subscriber's state is visible from outside: both buffers and
the disconnect count (everything but the static `init`). -/
def SubState.visible (s : SubState) : List Rect × List Rect × Nat :=
  (s.back, s.front, s.disconnects)

/-! ## The stale buffer, position by position (PubGlife.cpp, lines 76-89) -/

/-- The cell is alive: the test of line 80. -/
def isAlive (phase : Grid) (c : Nat × Nat) : Bool :=
  decide (phase c.1 c.2 = Phase.Alive)

/-- The latest living cell at or before position `i` of a scan over `cells`
(positions count from 0), if there is one. -/
def latestAliveUpTo (phase : Grid) (cells : List (Nat × Nat)) (i : Nat) : Option (Nat × Nat) :=
  ((cells.take (i + 1)).filter (isAlive phase)).getLast?

/-- The text a stale buffer makes position `i` of a scan publish: the message
of the latest living cell at or before `i`, and before the first living cell
what `ioBuff` held on entry. -/
def staleText (phase : Grid) (cells : List (Nat × Nat)) (ioBuff : CString) (i : Nat) : CString :=
  match latestAliveUpTo phase cells i with
  | some c => cellMsg c
  | none => ioBuff

/-- The rectangle lines 104-111 of SubGlife.c draw for the message
`data <x> <y> ...`, with the `int` values as `atoi` and the arithmetic leave
them. -/
def plottedRect (x y : Int) : Rect :=
  { x1 := wrapInt32 (CELL_SIZE * wrapInt32 (clampLong x)),
    y1 := wrapInt32 (CELL_SIZE * wrapInt32 (clampLong y)),
    x2 := wrapInt32 (wrapInt32 (CELL_SIZE * wrapInt32 (clampLong x)) + CELL_SIZE),
    y2 := wrapInt32 (wrapInt32 (CELL_SIZE * wrapInt32 (clampLong y)) + CELL_SIZE) }

/-! ## Connection set-up in the two `main` functions -/

/-- What `main` reads of the context the connect call returns
(`redisContext` in PubGlife.cpp, `redisAsyncContext` in SubGlife.c). -/
structure redisContext where
  /-- `c->err`: non-zero when the connection is in error. -/
  err : Int
  /-- `c->errstr`. -/
  errstr : CString
  deriving DecidableEq, Repr

/-- How `main` goes on after the connect call. -/
inductive MainOutcome where
  /-- It printed `out` and returned `status` without setting up a display
  or a loop. -/
  | returned (out : CString) (status : Int)
  /-- It set up the display and entered its loop (`glutMainLoop`, `aeMain`). -/
  | enteredLoop
  deriving DecidableEq, Repr

/-- The test `c == NULL || c->err`, with `||` evaluated left to right. -/
def connectFailed (c : Option redisContext) : Bool :=
  match c with
  | none => true
  | some ctx => ctx.err != 0

/-- The text of `printf("Error: %s\n", c->errstr)`. -/
def errorText (ctx : redisContext) : CString :=
  "Error: ".toList ++ ctx.errstr ++ ['\n']

/-- The text of the `printf` of the `else` branch (PubGlife.cpp line 247,
SubGlife.c line 234). -/
def allocText : CString :=
  "Can".toList ++ Char.ofNat 39 :: "t allocate redis context\n".toList

/-- PubGlife.cpp, lines 238-262: `main` from `c = redisConnect(hostip, hostport)`
on, given what `redisConnect` returned (`none` for `NULL`).  Inside the branch
the inner test `if (c->err)` (line 241) reads through `c` whatever it is:
`none` is the crash of reading through a `NULL` pointer. -/
def PubGlife.main (c : Option redisContext) : Option MainOutcome :=
  if connectFailed c then
    match c with
    | none => none
    | some ctx =>
      if ctx.err ≠ 0 then some (MainOutcome.returned (errorText ctx) (-1))
      else some (MainOutcome.returned allocText (-1))
  else some MainOutcome.enteredLoop

/-- SubGlife.c, lines 225-262: `main` from
`redisAsyncContext *c = redisAsyncConnect(hostip, hostport)` on; the inner test
`if (c->err)` is that of line 228. -/
def SubGlife.main (c : Option redisContext) : Option MainOutcome :=
  if connectFailed c then
    match c with
    | none => none
    | some ctx =>
      if ctx.err ≠ 0 then some (MainOutcome.returned (errorText ctx) (-1))
      else some (MainOutcome.returned allocText (-1))
  else some MainOutcome.enteredLoop

/-! ## Publishing over a channel that can fail (PubGlife.cpp, lines 75-94) -/

/-- The channel as the publisher meets it: whether publish call number `n`
of the run (counted from 0) succeeds. -/
abbrev Channel := Nat → Bool

/-- The publisher's end of the channel: the number of publish calls made so
far and the messages the channel has taken, oldest first. -/
structure Wire where
  calls : Nat
  sent : List CString
  deriving DecidableEq, Repr

/-- The channel before the first publish call. -/
def Wire.start : Wire := { calls := 0, sent := [] }

/-- One `redisCommand(c, "PUBLISH sscpactest ...")`: the call is made, the
message is published if the call succeeds, and the caller is handed the
outcome (`false` for a `NULL` or an error reply). -/
def redisCommand (ch : Channel) (w : Wire) (text : CString) : Wire × Bool :=
  ({ calls := w.calls + 1, sent := if ch w.calls then w.sent ++ [text] else w.sent },
    ch w.calls)

/-- Lines 76-89 on a channel: `scanPublish` with every publish call made
through `redisCommand`; line 87 does not keep the outcome. -/
def scanPublishOn (ch : Channel) (phase : Grid) : List (Nat × Nat) → CString → Wire → Wire
  | [], _, w => w
  | c :: rest, ioBuff, w =>
    scanPublishOn ch phase rest (cellBuffer phase ioBuff c)
      (redisCommand ch w (cellBuffer phase ioBuff c)).1

/-- `void drawSpace()` on a channel: the four `redisCommand` statements
(lines 75, 87, 90, 94) are expression statements, so the outcome of each call
is dropped and the next statement runs. -/
def drawSpaceOn (ch : Channel) (phase : Grid) (ioBuff : CString) (s : PubState) (w : Wire) :
    Wire × PubState :=
  let w1 := (redisCommand ch w clearMsg).1
  let w2 := scanPublishOn ch phase scanOrder ioBuff w1
  let w3 := (redisCommand ch w2 swapMsg).1
  let s1 : PubState := { s with init := false, life := wrapInt32 (s.life + 1) }
  if s.life > s.lifeSpan then
    ((redisCommand ch w3 eofMsg).1, { s1 with leaving := true })
  else
    (w3, s1)

/-- The run of `publisherRun` on a channel. -/
def publisherRunOn (ch : Channel) (grids : Nat → Grid) (bufs : Nat → CString) :
    Nat → Nat → PubState → Wire → Wire
  | 0, _, _, w => w
  | fuel + 1, k, s, w =>
    if s.leaving then w
    else
      publisherRunOn ch grids bufs fuel (k + 1) (drawSpaceOn ch (grids k) (bufs k) s w).2
        (drawSpaceOn ch (grids k) (bufs k) s w).1

/-- Publish calls made one after the other for a list of texts, none of them
depending on the outcome of another. -/
def publishAll (ch : Channel) : Wire → List CString → Wire
  | w, [] => w
  | w, m :: rest => publishAll ch (redisCommand ch w m).1 rest

/-- Of the texts of the publish calls number `n`, `n + 1`, ..., those the
channel takes. -/
def accepted (ch : Channel) : Nat → List CString → List CString
  | _, [] => []
  | n, m :: rest => if ch n then m :: accepted ch (n + 1) rest else accepted ch (n + 1) rest

/-- A channel on which the first publish call fails and every later one
succeeds. -/
def firstCallFails : Channel := fun n => n != 0

/-! ## Theorems: the neighbour count -/

theorem tmod_neg_one (n : Nat) (hn : 2 ≤ n) : Int.tmod (-1) (n : Int) = -1 := by
  obtain ⟨k, rfl⟩ : ∃ k, n = k + 2 := ⟨n - 2, by omega⟩
  show -(((1 % (k + 2) : Nat) : Int)) = -1
  rw [Nat.mod_eq_of_lt (by omega)]
  rfl

theorem emod_pred (n : Nat) (hn : 2 ≤ n) : (-1 : Int) % (n : Int) = (n : Int) - 1 := by
  have h := Int.add_emod_self (a := -1) (b := (n : Int))
  rw [← h]
  exact Int.emod_eq_of_lt (by omega) (by omega)

theorem wrapIndex_eq_emod (v d : Int) (n : Nat) (hn : 2 ≤ n) (h0 : 0 ≤ v) (_h1 : v < n)
    (hd : unitOffset d) : wrapIndex v d n = (v + d) % (n : Int) := by
  unfold wrapIndex
  by_cases hneg : v + d < 0
  · have hv : v + d = -1 := by rcases hd with h | h | h <;> omega
    rw [hv]
    simp only [tmod_neg_one n hn, emod_pred n hn]
    simp
  · have hnn : 0 ≤ v + d := by omega
    rw [Int.tmod_eq_emod hnn (by omega)]
    have : 0 ≤ (v + d) % (n : Int) := Int.emod_nonneg _ (by omega)
    simp only
    rw [if_neg (by omega)]

theorem wrapIndex_range (v d : Int) (n : Nat) (hn : 2 ≤ n) (h0 : 0 ≤ v) (h1 : v < n)
    (hd : unitOffset d) : 0 ≤ wrapIndex v d n ∧ wrapIndex v d n < n := by
  rw [wrapIndex_eq_emod v d n hn h0 h1 hd]
  exact ⟨Int.emod_nonneg _ (by omega), Int.emod_lt_of_pos _ (by omega)⟩

theorem emod_succ_ne (v : Int) (n : Nat) (hn : 2 ≤ n) (h0 : 0 ≤ v) (h1 : v < n) :
    (v + 1) % (n : Int) ≠ v := by
  by_cases h : v + 1 < n
  · rw [Int.emod_eq_of_lt (by omega) h]; omega
  · have : v + 1 = n := by omega
    rw [this, Int.emod_self]; omega

theorem emod_pred_ne (v : Int) (n : Nat) (hn : 2 ≤ n) (h0 : 0 ≤ v) (h1 : v < n) :
    (v + -1) % (n : Int) ≠ v := by
  by_cases h : 0 < v
  · rw [Int.emod_eq_of_lt (by omega) (by omega)]; omega
  · have : v = 0 := by omega
    rw [this, Int.zero_add, emod_pred n hn]; omega

theorem emod_offset_eq_self_iff (v d : Int) (n : Nat) (hn : 2 ≤ n) (h0 : 0 ≤ v) (h1 : v < n)
    (hd : unitOffset d) : (v + d) % (n : Int) = v ↔ d = 0 := by
  rcases hd with h | h | h <;> subst h
  · simp [emod_pred_ne v n hn h0 h1]
  · simp [Int.emod_eq_of_lt h0 h1]
  · simp [emod_succ_ne v n hn h0 h1]

theorem emod_offset_inj (v d e : Int) (n : Nat) (hn : 3 ≤ n)
    (hd : unitOffset d) (he : unitOffset e)
    (h : (v + d) % (n : Int) = (v + e) % (n : Int)) : d = e := by
  have h2 : ((n : Int)) ∣ (v + d) - (v + e) := Int.ModEq.dvd (Eq.symm h)
  have h3 : ((n : Int)) ∣ d - e := by
    have : (v + d) - (v + e) = d - e := by ring
    rwa [this] at h2
  have h4 : d - e = 0 := by
    apply Int.eq_zero_of_abs_lt_dvd h3
    rcases hd with h | h | h <;> rcases he with g | g | g <;> subst h <;> subst g <;>
      simp <;> omega
  omega

theorem width_ge : 3 ≤ WIDTH := by decide

theorem height_ge : 3 ≤ HEIGHT := by decide

theorem readPhase_inRange (phase : Grid) (xx yy : Int)
    (hx : 0 ≤ xx ∧ xx < (WIDTH : Int)) (hy : 0 ≤ yy ∧ yy < (HEIGHT : Int)) :
    readPhase phase xx yy = some (phase xx.toNat yy.toNat) := by
  unfold readPhase
  rw [if_pos ⟨hx.1, hx.2, hy.1, hy.2⟩]

theorem neighbourIndex_eq (x y dx dy : Int)
    (hx0 : 0 ≤ x) (hx : x < (WIDTH : Int)) (hy0 : 0 ≤ y) (hy : y < (HEIGHT : Int))
    (hdx : unitOffset dx) (hdy : unitOffset dy) :
    neighbourIndex x y dx dy = ((x + dx) % (WIDTH : Int), (y + dy) % (HEIGHT : Int)) := by
  unfold neighbourIndex
  rw [wrapIndex_eq_emod x dx WIDTH (by decide) hx0 hx hdx,
    wrapIndex_eq_emod y dy HEIGHT (by decide) hy0 hy hdy]

theorem countStep_eq (phase : Grid) (x y nalive dx dy : Int)
    (hx0 : 0 ≤ x) (hx : x < (WIDTH : Int)) (hy0 : 0 ≤ y) (hy : y < (HEIGHT : Int))
    (hdx : unitOffset dx) (hdy : unitOffset dy) :
    countStep phase x y nalive dx dy =
      some (nalive +
        if readPhase phase ((x + dx) % (WIDTH : Int)) ((y + dy) % (HEIGHT : Int))
            = some Phase.Alive ∧ offCentre (dx, dy) = true then 1 else 0) := by
  have hxr : 0 ≤ (x + dx) % (WIDTH : Int) ∧ (x + dx) % (WIDTH : Int) < (WIDTH : Int) :=
    ⟨Int.emod_nonneg _ (by decide), Int.emod_lt_of_pos _ (by decide)⟩
  have hyr : 0 ≤ (y + dy) % (HEIGHT : Int) ∧ (y + dy) % (HEIGHT : Int) < (HEIGHT : Int) :=
    ⟨Int.emod_nonneg _ (by decide), Int.emod_lt_of_pos _ (by decide)⟩
  unfold countStep
  rw [neighbourIndex_eq x y dx dy hx0 hx hy0 hy hdx hdy]
  simp only [readPhase_inRange phase _ _ hxr hyr]
  have hself : ((x + dx) % (WIDTH : Int) = x ∧ (y + dy) % (HEIGHT : Int) = y) ↔
      ¬ (offCentre (dx, dy) = true) := by
    rw [emod_offset_eq_self_iff x dx WIDTH (by decide) hx0 hx hdx,
      emod_offset_eq_self_iff y dy HEIGHT (by decide) hy0 hy hdy]
    simp [offCentre]
  by_cases ha : phase ((x + dx) % (WIDTH : Int)).toNat ((y + dy) % (HEIGHT : Int)).toNat
      = Phase.Alive
  · by_cases h0 : offCentre (dx, dy) = true
    · rw [if_pos ⟨ha, by rw [hself]; exact not_not.mpr h0⟩, if_pos ⟨by rw [ha], h0⟩]
    · rw [if_neg (fun h => h.2 (hself.mpr h0)), if_neg (fun h => h0 h.2)]; simp
  · rw [if_neg (fun h => ha h.1), if_neg (fun h => ha (by simpa using h.1))]; simp

theorem countLoop_eq (phase : Grid) (x y : Int)
    (hx0 : 0 ≤ x) (hx : x < (WIDTH : Int)) (hy0 : 0 ≤ y) (hy : y < (HEIGHT : Int)) :
    ∀ (ds : List (Int × Int)) (nalive : Int),
      (∀ d ∈ ds, unitOffset d.1 ∧ unitOffset d.2) →
      countLoop phase x y ds nalive =
        some (nalive + ((ds.filter offCentre).countP (fun d =>
          decide (readPhase phase ((x + d.1) % (WIDTH : Int)) ((y + d.2) % (HEIGHT : Int))
            = some Phase.Alive)) : Nat)) := by
  intro ds
  induction ds with
  | nil => intro nalive _; simp [countLoop]
  | cons d rest ih =>
    intro nalive hds
    obtain ⟨dx, dy⟩ := d
    have hd := hds (dx, dy) (List.mem_cons_self _ _)
    have hrest : ∀ d ∈ rest, unitOffset d.1 ∧ unitOffset d.2 :=
      fun d hm => hds d (List.mem_cons_of_mem _ hm)
    simp only [countLoop]
    rw [countStep_eq phase x y nalive dx dy hx0 hx hy0 hy hd.1 hd.2]
    simp only
    rw [ih _ hrest]
    by_cases h0 : offCentre (dx, dy) = true
    · rw [List.filter_cons_of_pos h0, List.countP_cons]
      by_cases ha : readPhase phase ((x + dx) % (WIDTH : Int)) ((y + dy) % (HEIGHT : Int))
          = some Phase.Alive
      · rw [if_pos ⟨ha, h0⟩]; simp [ha]; ring
      · rw [if_neg (fun h => ha h.1)]; simp [ha]
    · rw [if_neg (fun h => h0 h.2), List.filter_cons_of_neg h0]
      simp

theorem offsets_unit : ∀ d ∈ offsets, unitOffset d.1 ∧ unitOffset d.2 := by
  unfold offsets unitOffset
  decide

theorem neighbourOffsets_unit : ∀ d ∈ neighbourOffsets, unitOffset d.1 ∧ unitOffset d.2 := by
  unfold neighbourOffsets unitOffset
  decide

theorem offsets_filter : offsets.filter offCentre = neighbourOffsets := by
  decide

/-- C1: for every grid and every cell `(x, y)` of the grid,
`count_living_cells` returns the number of `Alive` cells among the eight
toroidal neighbour positions `((x+dx) mod WIDTH, (y+dy) mod HEIGHT)`,
`(dx, dy) ≠ (0, 0)`.  Those eight positions are pairwise distinct and none of
them is `(x, y)`, so the cell itself is never counted, and the count is at
most 8.  Corners and edges are the cases `x, y ∈ {0, 99}`. -/
theorem count_living_cells_correct (phase : Grid) (x y : Int)
    (hx0 : 0 ≤ x) (hx : x < (WIDTH : Int)) (hy0 : 0 ≤ y) (hy : y < (HEIGHT : Int)) :
    count_living_cells phase x y = some ((aliveAmong phase (torusNeighbours x y) : Nat) : Int)
    ∧ (x, y) ∉ torusNeighbours x y
    ∧ (torusNeighbours x y).Nodup
    ∧ (torusNeighbours x y).length = 8
    ∧ aliveAmong phase (torusNeighbours x y) ≤ 8 := by
  refine ⟨?_, ?_, ?_, ?_, ?_⟩
  · unfold count_living_cells
    rw [countLoop_eq phase x y hx0 hx hy0 hy offsets 0 offsets_unit, offsets_filter]
    unfold aliveAmong torusNeighbours
    rw [List.countP_map]
    simp [Function.comp_def]
  · unfold torusNeighbours
    intro hmem
    obtain ⟨d, hd, heq⟩ := List.mem_map.mp hmem
    have hu := neighbourOffsets_unit d hd
    have h1 := (emod_offset_eq_self_iff x d.1 WIDTH (by decide) hx0 hx hu.1).mp
      (congrArg Prod.fst heq)
    have h2 := (emod_offset_eq_self_iff y d.2 HEIGHT (by decide) hy0 hy hu.2).mp
      (congrArg Prod.snd heq)
    have : d = (0, 0) := Prod.ext h1 h2
    rw [this] at hd
    revert hd
    decide
  · unfold torusNeighbours
    apply List.Nodup.map_on
    · intro d hd e he heq
      have hu := neighbourOffsets_unit d hd
      have hv := neighbourOffsets_unit e he
      exact Prod.ext
        (emod_offset_inj x d.1 e.1 WIDTH width_ge hu.1 hv.1 (congrArg Prod.fst heq))
        (emod_offset_inj y d.2 e.2 HEIGHT height_ge hu.2 hv.2 (congrArg Prod.snd heq))
    · decide
  · simp [torusNeighbours, neighbourOffsets]
  · unfold aliveAmong
    calc List.countP _ (torusNeighbours x y) ≤ (torusNeighbours x y).length :=
          List.countP_le_length _
      _ = 8 := by simp [torusNeighbours, neighbourOffsets]

/-- Witness of C1 at the corner `(0, 0)`: its only living neighbour is the
diagonally wrapped cell `(99, 99)`. -/
theorem count_living_cells_correct_witness :
    (0 : Int) ≤ 0 ∧ (0 : Int) < (WIDTH : Int) ∧ (0 : Int) < (HEIGHT : Int)
    ∧ count_living_cells (singleCell 99 99) 0 0 = some 1 :=
  ⟨by decide, by decide, by decide,
    (count_living_cells_correct (singleCell 99 99) 0 0
      (by decide) (by decide) (by decide) (by decide)).1.trans (by decide)⟩

/-- C2: for every cell `(x, y)` of the grid and every offset `(dx, dy)` of
the loops, the indices with which `count_living_cells` reads `phase` lie in
`[0, WIDTH) × [0, HEIGHT)`, the read does not take the out-of-range branch,
and the whole call returns a count.  The function has no store to the grid:
its embedding only reads `phase`. -/
theorem count_living_cells_in_bounds (phase : Grid) (x y dx dy : Int)
    (hx0 : 0 ≤ x) (hx : x < (WIDTH : Int)) (hy0 : 0 ≤ y) (hy : y < (HEIGHT : Int))
    (hdx : unitOffset dx) (hdy : unitOffset dy) :
    0 ≤ (neighbourIndex x y dx dy).1 ∧ (neighbourIndex x y dx dy).1 < (WIDTH : Int)
    ∧ 0 ≤ (neighbourIndex x y dx dy).2 ∧ (neighbourIndex x y dx dy).2 < (HEIGHT : Int)
    ∧ readPhase phase (neighbourIndex x y dx dy).1 (neighbourIndex x y dx dy).2 ≠ none
    ∧ (count_living_cells phase x y).isSome = true := by
  have h1 := wrapIndex_range x dx WIDTH (by decide) hx0 hx hdx
  have h2 := wrapIndex_range y dy HEIGHT (by decide) hy0 hy hdy
  refine ⟨h1.1, h1.2, h2.1, h2.2, ?_, ?_⟩
  · show readPhase phase (wrapIndex x dx WIDTH) (wrapIndex y dy HEIGHT) ≠ none
    rw [readPhase_inRange phase _ _ h1 h2]
    exact Option.some_ne_none _
  · unfold count_living_cells
    rw [countLoop_eq phase x y hx0 hx hy0 hy offsets 0 offsets_unit]
    rfl

/-- Witness of C2 at the corner `(99, 0)` with the offset `(1, -1)`, which
wraps in both directions. -/
theorem count_living_cells_in_bounds_witness :
    neighbourIndex 99 0 1 (-1) = (0, 99)
    ∧ (count_living_cells allDead 99 0).isSome = true :=
  ⟨by decide,
    (count_living_cells_in_bounds allDead 99 0 1 (-1) (by decide) (by decide) (by decide)
      (by decide) (Or.inr (Or.inr rfl)) (Or.inl rfl)).2.2.2.2.2⟩
/-! ## Theorems: decimal text and `atoi` -/

theorem digitChar_isDigit (d : Nat) (h : d < 10) :
    (Nat.digitChar d).isDigit = true ∧ ((Nat.digitChar d).toNat : Int) - 48 = d := by
  interval_cases d <;> exact ⟨by decide, by decide⟩

theorem atoiDigits_append (p q : CString) (hp : ∀ c ∈ p, c.isDigit = true) :
    ∀ a : Int, atoiDigits (p ++ q) a = atoiDigits q (atoiDigits p a) := by
  induction p with
  | nil => intro a; simp [atoiDigits]
  | cons c t ih =>
    intro a
    have hc : c.isDigit = true := hp c (List.mem_cons_self _ _)
    have ht : ∀ c ∈ t, c.isDigit = true := fun c hm => hp c (List.mem_cons_of_mem _ hm)
    simp only [List.cons_append, atoiDigits, hc, if_true]
    exact ih ht _

/-- The digit text of `n` with `ds` after it: a non-empty run of digits whose
value, read by the digit loop of `atoi`, is `n`. -/
theorem toDigitsCore_spec : ∀ (fuel n : Nat) (ds : List Char), n < fuel →
    ∃ p : List Char, Nat.toDigitsCore 10 fuel n ds = p ++ ds ∧ p ≠ [] ∧
      (∀ c ∈ p, c.isDigit = true) ∧
      ∀ a : Int, atoiDigits p a = a * 10 ^ p.length + (n : Int) := by
  intro fuel
  induction fuel with
  | zero => intro n ds h; omega
  | succ f ih =>
    intro n ds hn
    have hd := digitChar_isDigit (n % 10) (Nat.mod_lt _ (by decide))
    by_cases h0 : n / 10 = 0
    · refine ⟨[Nat.digitChar (n % 10)], ?_, by simp, ?_, ?_⟩
      · simp [Nat.toDigitsCore, h0]
      · intro c hc
        rw [List.mem_singleton] at hc
        rw [hc]; exact hd.1
      · intro a
        have hlt : n < 10 := by omega
        simp only [atoiDigits, hd.1, if_true, List.length_singleton, pow_one]
        rw [hd.2, Nat.mod_eq_of_lt hlt]
        ring
    · have hlt : n / 10 < f := by omega
      obtain ⟨p, hp, _, hdig, hval⟩ := ih (n / 10) (Nat.digitChar (n % 10) :: ds) hlt
      refine ⟨p ++ [Nat.digitChar (n % 10)], ?_, by simp, ?_, ?_⟩
      · simp [Nat.toDigitsCore, h0, hp]
      · intro c hc
        rcases List.mem_append.mp hc with h | h
        · exact hdig c h
        · rw [List.mem_singleton] at h
          rw [h]; exact hd.1
      · intro a
        rw [atoiDigits_append p _ hdig, hval a]
        simp only [atoiDigits, hd.1, if_true, List.length_append, List.length_singleton]
        rw [hd.2]
        have hsplit : (n : Int) = 10 * ((n / 10 : Nat) : Int) + ((n % 10 : Nat) : Int) := by
          have := Nat.div_add_mod n 10
          omega
        have hpow : a * 10 ^ (p.length + 1) = 10 * (a * 10 ^ p.length) := by ring
        rw [hpow]
        omega

theorem toDigits_spec (n : Nat) :
    Nat.toDigits 10 n ≠ [] ∧ (∀ c ∈ Nat.toDigits 10 n, c.isDigit = true) ∧
      atoiDigits (Nat.toDigits 10 n) 0 = (n : Int) := by
  obtain ⟨p, hp, hne, hdig, hval⟩ := toDigitsCore_spec (n + 1) n [] (by omega)
  have hp2 : Nat.toDigits 10 n = p := by
    unfold Nat.toDigits
    rw [hp, List.append_nil]
  rw [hp2]
  exact ⟨hne, hdig, by rw [hval 0]; simp⟩

theorem fmtInt_bytes (v : Int) : ∀ c ∈ fmtInt v, decimalByte c := by
  intro c hc
  cases v with
  | ofNat n => exact Or.inl ((toDigits_spec n).2.1 c hc)
  | negSucc n =>
    simp only [fmtInt, List.mem_cons] at hc
    rcases hc with h | h
    · exact Or.inr h
    · exact Or.inl ((toDigits_spec (n + 1)).2.1 c h)

theorem isspace_not_isDigit (c : Char) (h : isspace c = true) : c.isDigit = false := by
  simp only [isspace, Bool.or_eq_true, beq_iff_eq] at h
  rcases h with ((((h | h) | h) | h) | h) | h <;> subst h <;> decide

theorem isDigit_not_isspace (c : Char) (h : c.isDigit = true) : isspace c = false := by
  cases hs : isspace c with
  | false => rfl
  | true => rw [isspace_not_isDigit c hs] at h; exact absurd h (by decide)

theorem parseDecimal_fmtInt (v : Int) : parseDecimal (fmtInt v) = v := by
  cases v with
  | ofNat n =>
    obtain ⟨hne, hdig, hval⟩ := toDigits_spec n
    show parseDecimal (Nat.toDigits 10 n) = Int.ofNat n
    cases hp : Nat.toDigits 10 n with
    | nil => exact absurd hp hne
    | cons c t =>
      rw [hp] at hdig hval
      have hc : c.isDigit = true := hdig c (List.mem_cons_self _ _)
      have hsp : isspace c = false := isDigit_not_isspace c hc
      have h1 : c ≠ '-' := by intro h; rw [h] at hc; exact absurd hc (by decide)
      have h2 : c ≠ '+' := by intro h; rw [h] at hc; exact absurd hc (by decide)
      simp only [parseDecimal, List.dropWhile, hsp, if_neg h1, if_neg h2]
      exact hval
  | negSucc n =>
    obtain ⟨_, _, hval⟩ := toDigits_spec (n + 1)
    show parseDecimal ('-' :: Nat.toDigits 10 (n + 1)) = Int.negSucc n
    have hsp : isspace '-' = false := by decide
    simp only [parseDecimal, List.dropWhile, hsp, if_true]
    rw [hval]
    rfl

theorem wrapInt32_of_isInt32 (v : Int) (h : isInt32 v) : wrapInt32 v = v := by
  unfold isInt32 at h
  unfold wrapInt32
  omega

theorem clampLong_of_isInt32 (v : Int) (h : isInt32 v) : clampLong v = v := by
  unfold isInt32 at h
  unfold clampLong
  rw [if_neg (by omega), if_neg (by omega)]

/-- `atoi` reads back what `%i` printed, for every `int`. -/
theorem atoi_fmtInt (v : Int) (h : isInt32 v) : atoi (fmtInt v) = v := by
  unfold atoi
  rw [parseDecimal_fmtInt, clampLong_of_isInt32 v h, wrapInt32_of_isInt32 v h]

theorem decimalByte_ne_space (c : Char) (h : decimalByte c) : c ≠ ' ' := by
  intro heq
  rw [heq] at h
  rcases h with h | h
  · exact absurd h (by decide)
  · exact absurd h (by decide)

theorem decimalByte_ne_A (c : Char) (h : decimalByte c) : c ≠ 'A' := by
  intro heq
  rw [heq] at h
  rcases h with h | h
  · exact absurd h (by decide)
  · exact absurd h (by decide)

theorem decimalByte_ne_NUL (c : Char) (h : decimalByte c) : c ≠ NUL := by
  intro heq
  rw [heq] at h
  rcases h with h | h
  · exact absurd h (by decide)
  · exact absurd h (by decide)

/-! ## Theorems: the string searches -/

theorem c_str_of_no_NUL (l : List Char) (h : ∀ c ∈ l, c ≠ NUL) : c_str l = l := by
  unfold c_str
  rw [List.takeWhile_eq_self_iff]
  intro c hc
  simpa using h c hc

theorem c_str_no_NUL (l : List Char) : ∀ c ∈ c_str l, c ≠ NUL := by
  intro c hc
  have := List.mem_takeWhile_imp hc
  simpa using this

theorem index_of_sep (p r : CString) (c : Char) (hp : ∀ a ∈ p, a ≠ c) :
    index (p ++ c :: r) c = some p.length := by
  induction p with
  | nil => simp [index]
  | cons a t ih =>
    have ha : a ≠ c := hp a (List.mem_cons_self _ _)
    have ht : ∀ a ∈ t, a ≠ c := fun a hm => hp a (List.mem_cons_of_mem _ hm)
    simp [index, ha, ih ht]

theorem index_none_iff (s : CString) (c : Char) : index s c = none ↔ c ∉ s := by
  induction s with
  | nil => simp [index]
  | cons a t ih =>
    by_cases h : a = c
    · simp [index, h]
    · simp [index, h, ih, Ne.symm h]

/-- A successful `index` splits the string at the first separator. -/
theorem index_some (s : CString) (c : Char) (i : Nat) (h : index s c = some i) :
    s = s.take i ++ c :: s.drop (i + 1) ∧ c ∉ s.take i := by
  induction s generalizing i with
  | nil => simp [index] at h
  | cons a t ih =>
    by_cases hac : a = c
    · simp only [index, hac, if_true, Option.some.injEq] at h
      subst h
      simp [hac]
    · simp only [index, hac, if_false, Option.map_eq_some'] at h
      obtain ⟨j, hj, rfl⟩ := h
      obtain ⟨h1, h2⟩ := ih j hj
      refine ⟨?_, ?_⟩
      · simp only [List.take_succ_cons, List.drop_succ_cons, List.cons_append]
        rw [← h1]
      · simp only [List.take_succ_cons, List.mem_cons, not_or]
        exact ⟨Ne.symm hac, h2⟩

theorem strstr_isSome_iff (h n : CString) : (strstr h n).isSome = true ↔ n <:+: h := by
  induction h with
  | nil =>
    by_cases hn : n = []
    · simp [strstr, hn]
    · simp [strstr, hn]
  | cons c t ih =>
    rw [List.infix_cons_iff]
    by_cases hp : n.isPrefixOf (c :: t) = true
    · simp only [strstr, hp, if_true, Option.isSome_some, true_iff]
      exact Or.inl (List.isPrefixOf_iff_prefix.mp hp)
    · have hp2 : ¬ n <+: c :: t := fun h => hp (List.isPrefixOf_iff_prefix.mpr h)
      simp only [strstr, hp, Bool.false_eq_true, if_false, Option.isSome_map', ih, hp2, false_or]

/-- A needle that starts with a byte absent from `p` occurs in `p ++ s` only
inside `s`. -/
theorem infix_append_of_head_not_mem (p s n : CString) (a : Char)
    (hp : ∀ c ∈ p, c ≠ a) : (a :: n) <:+: p ++ s ↔ (a :: n) <:+: s := by
  induction p with
  | nil => simp
  | cons c t ih =>
    have hc : c ≠ a := hp c (List.mem_cons_self _ _)
    have ht : ∀ c ∈ t, c ≠ a := fun c hm => hp c (List.mem_cons_of_mem _ hm)
    rw [List.cons_append, List.infix_cons_iff, ih ht]
    constructor
    · rintro (h | h)
      · exact absurd (List.cons_prefix_cons.mp h).1.symm hc
      · exact h
    · exact fun h => Or.inr h

theorem toNat_ne_zero_of_ne_NUL (c : Char) (h : c ≠ NUL) : (c.toNat : Int) ≠ 0 := by
  intro h0
  apply h
  have h1 : c.toNat = 0 := by exact_mod_cast h0
  have h2 : Char.ofNat c.toNat = c := Char.ofNat_toNat c
  rw [h1] at h2
  exact h2.symm

theorem toNat_sub_ne_zero (a b : Char) (h : a ≠ b) : (a.toNat : Int) - (b.toNat : Int) ≠ 0 := by
  intro h0
  apply h
  have h1 : a.toNat = b.toNat := by omega
  have ha : Char.ofNat a.toNat = a := Char.ofNat_toNat a
  have hb : Char.ofNat b.toNat = b := Char.ofNat_toNat b
  rw [← ha, ← hb, h1]

/-- `strncmp(p, s, strlen(p)) == 0` holds exactly when `p` is a prefix of `s`. -/
theorem strncmp_eq_zero_iff (p s : CString) (hp : ∀ c ∈ p, c ≠ NUL) :
    strncmp p s p.length = 0 ↔ p <+: s := by
  induction p generalizing s with
  | nil => simp [strncmp]
  | cons a t ih =>
    have ha : a ≠ NUL := hp a (List.mem_cons_self _ _)
    have ht : ∀ c ∈ t, c ≠ NUL := fun c hm => hp c (List.mem_cons_of_mem _ hm)
    cases s with
    | nil =>
      simp only [List.length_cons, strncmp]
      constructor
      · intro h; exact absurd h (toNat_ne_zero_of_ne_NUL a ha)
      · intro h; simp at h
    | cons b u =>
      simp only [List.length_cons, strncmp]
      by_cases hab : a = b
      · subst hab
        simp only [if_true]
        rw [ih u ht]
        constructor
        · intro h; exact List.cons_prefix_cons.mpr ⟨rfl, h⟩
        · intro h; exact (List.cons_prefix_cons.mp h).2
      · simp only [hab, if_false]
        constructor
        · intro h; exact absurd h (toNat_sub_ne_zero a b hab)
        · intro h; exact absurd (List.cons_prefix_cons.mp h).1 hab

/-- `strcmp(p, s) == 0` holds exactly when the two strings are equal. -/
theorem strcmp_eq_zero_iff (p s : CString) (hp : ∀ c ∈ p, c ≠ NUL) (hs : ∀ c ∈ s, c ≠ NUL) :
    strcmp p s = 0 ↔ p = s := by
  induction p generalizing s with
  | nil =>
    cases s with
    | nil => simp [strcmp]
    | cons b u =>
      have hb : b ≠ NUL := hs b (List.mem_cons_self _ _)
      simp only [strcmp]
      constructor
      · intro h
        have := toNat_ne_zero_of_ne_NUL b hb
        omega
      · intro h; simp at h
  | cons a t ih =>
    have ha : a ≠ NUL := hp a (List.mem_cons_self _ _)
    have ht : ∀ c ∈ t, c ≠ NUL := fun c hm => hp c (List.mem_cons_of_mem _ hm)
    cases s with
    | nil =>
      simp only [strcmp]
      constructor
      · intro h; exact absurd h (toNat_ne_zero_of_ne_NUL a ha)
      · intro h; simp at h
    | cons b u =>
      have hu : ∀ c ∈ u, c ≠ NUL := fun c hm => hs c (List.mem_cons_of_mem _ hm)
      simp only [strcmp]
      by_cases hab : a = b
      · subst hab
        simp only [if_true]
        rw [ih u ht hu]
        simp
      · simp only [hab, if_false]
        constructor
        · intro h; exact absurd h (toNat_sub_ne_zero a b hab)
        · intro h; exact absurd (List.cons.inj h).1 hab

/-! ## Theorems: the subscriber's parsing -/

theorem index_count (s : CString) (c : Char) (i : Nat) (h : index s c = some i) :
    s.count c = (s.drop (i + 1)).count c + 1 := by
  obtain ⟨h1, h2⟩ := index_some s c i h
  have h3 : (s.take i).count c = 0 := List.count_eq_zero_of_not_mem h2
  calc s.count c = (s.take i ++ c :: s.drop (i + 1)).count c := by rw [← h1]
    _ = (s.drop (i + 1)).count c + 1 := by
        rw [List.count_append, h3, List.count_cons_self]; omega

theorem index_none_count (s : CString) (c : Char) (h : index s c = none) : s.count c = 0 :=
  List.count_eq_zero_of_not_mem ((index_none_iff s c).mp h)

/-- The plotting code runs through exactly when the string has three blanks. -/
theorem plotData_isSome_iff (str : CString) (s : SubState) :
    (plotData str s).isSome = true ↔ 3 ≤ str.count ' ' := by
  unfold plotData
  cases h1 : index str ' ' with
  | none =>
    have := index_none_count str ' ' h1
    simp; omega
  | some i =>
    have c1 := index_count str ' ' i h1
    simp only
    cases h2 : index (List.drop (i + 1) str) ' ' with
    | none =>
      have := index_none_count _ ' ' h2
      simp; omega
    | some j =>
      have c2 := index_count _ ' ' j h2
      simp only
      cases h3 : index (List.drop (j + 1) (List.drop (i + 1) str)) ' ' with
      | none =>
        have := index_none_count _ ' ' h3
        simp; omega
      | some k =>
        have c3 := index_count _ ' ' k h3
        simp; omega

theorem drop_sep (p r : CString) (c : Char) : List.drop (p.length + 1) (p ++ c :: r) = r := by
  rw [List.drop_append]
  rfl

/-- On `w x y rest` with blank-free `w`, `x`, `y`, the plotting code draws a
rectangle from `atoi x` and `atoi y`. -/
theorem plotData_fields (w fx fy t : CString) (s : SubState)
    (hw : ∀ c ∈ w, c ≠ ' ') (hx : ∀ c ∈ fx, c ≠ ' ') (hy : ∀ c ∈ fy, c ≠ ' ') :
    plotData (w ++ ' ' :: (fx ++ ' ' :: (fy ++ ' ' :: t))) s =
      some (glRecti (wrapInt32 (CELL_SIZE * atoi fx)) (wrapInt32 (CELL_SIZE * atoi fy))
        (wrapInt32 (wrapInt32 (CELL_SIZE * atoi fx) + CELL_SIZE))
        (wrapInt32 (wrapInt32 (CELL_SIZE * atoi fy) + CELL_SIZE)) s) := by
  unfold plotData
  rw [index_of_sep w _ ' ' hw]
  simp only [drop_sep]
  rw [index_of_sep fx _ ' ' hx]
  simp only [drop_sep, List.take_left]
  rw [index_of_sep fy _ ' ' hy]
  simp only [List.take_left]

theorem fmtInt_no_space (v : Int) : ∀ c ∈ fmtInt v, c ≠ ' ' :=
  fun c hc => decimalByte_ne_space c (fmtInt_bytes v c hc)

theorem plotData_dataMessage (x y : Int) (status : CString) (s : SubState)
    (hx : drawable x) (hy : drawable y) :
    plotData (dataMessage x y status) s =
      some { s with back := cellRect x y :: s.back } := by
  unfold dataMessage
  rw [plotData_fields _ _ _ _ s (by decide) (fmtInt_no_space x) (fmtInt_no_space y),
    atoi_fmtInt x hx.1, atoi_fmtInt y hy.1,
    wrapInt32_of_isInt32 _ hx.2.1, wrapInt32_of_isInt32 _ hy.2.1,
    wrapInt32_of_isInt32 _ hx.2.2, wrapInt32_of_isInt32 _ hy.2.2]
  rfl

theorem data_prefix_dataMessage (x y : Int) (status : CString) :
    strncmp "data".toList (dataMessage x y status) 4 = 0 :=
  (strncmp_eq_zero_iff "data".toList (dataMessage x y status) (by decide)).mpr
    (List.prefix_append _ _)

theorem alive_in_dataMessage (x y : Int) (status : CString) :
    "Alive".toList <:+: dataMessage x y status ↔ "Alive".toList <:+: status := by
  have hA : "Alive".toList = 'A' :: "live".toList := rfl
  have hd : dataMessage x y status
      = ("data".toList ++ ' ' :: (fmtInt x ++ ' ' :: (fmtInt y ++ [' ']))) ++ status := by
    simp [dataMessage]
  rw [hd, hA]
  apply infix_append_of_head_not_mem
  intro c hc
  simp only [List.mem_append, List.mem_cons, List.mem_singleton] at hc
  rcases hc with h | h | h | h | h | h
  · revert c; decide
  · rw [h]; decide
  · exact decimalByte_ne_A c (fmtInt_bytes x c h)
  · rw [h]; decide
  · exact decimalByte_ne_A c (fmtInt_bytes y c h)
  · rcases h with h | h
    · rw [h]; decide
    · simp at h

/-- The `if` / `else if` chain on a message `data <x> <y> <status>`: the cell
`(x, y)` is drawn exactly when the status contains `Alive`. -/
theorem handleStr_dataMessage (x y : Int) (status : CString) (st : SubState × Bool)
    (hx : drawable x) (hy : drawable y) :
    handleStr (dataMessage x y status) st =
      if "Alive".toList <:+: status then
        some ({ st.1 with back := cellRect x y :: st.1.back }, st.2)
      else some st := by
  unfold handleStr
  rw [if_pos (data_prefix_dataMessage x y status)]
  by_cases h : "Alive".toList <:+: status
  · rw [if_pos ((strstr_isSome_iff _ _).mpr ((alive_in_dataMessage x y status).mpr h)),
      if_pos h, plotData_dataMessage x y status st.1 hx hy]
    rfl
  · rw [if_neg (fun hs => h ((alive_in_dataMessage x y status).mp
      ((strstr_isSome_iff _ _).mp hs))), if_neg h]

/-! ## Theorems: the callback on one message -/

theorem data_prefix_iff (str : CString) :
    strncmp "data".toList str 4 = 0 ↔ "data".toList <+: str :=
  strncmp_eq_zero_iff "data".toList str (by decide)

theorem swap_prefix_iff (str : CString) :
    strncmp "swap".toList str 4 = 0 ↔ "swap".toList <+: str :=
  strncmp_eq_zero_iff "swap".toList str (by decide)

theorem clear_prefix_iff (str : CString) :
    strncmp "clear".toList str 5 = 0 ↔ "clear".toList <+: str :=
  strncmp_eq_zero_iff "clear".toList str (by decide)

theorem eof_iff (str : CString) (hs : ∀ c ∈ str, c ≠ NUL) :
    strcmp "_EOF_".toList str = 0 ↔ str = "_EOF_".toList := by
  rw [strcmp_eq_zero_iff "_EOF_".toList str (by decide) hs]
  exact eq_comm

/-- A string no branch takes leaves the surface and `exitSubPub` as they are. -/
theorem handleStr_unrecognized (str : CString) (st : SubState × Bool)
    (hs : ∀ c ∈ str, c ≠ NUL) (hu : unrecognized str) : handleStr str st = some st := by
  obtain ⟨h1, h2, h3, h4⟩ := hu
  unfold handleStr
  rw [if_neg (fun h => h1 ((data_prefix_iff str).mp h)),
    if_neg (fun h => h2 ((swap_prefix_iff str).mp h)),
    if_neg (fun h => h3 ((clear_prefix_iff str).mp h)),
    if_neg (fun h => h4 ((eof_iff str hs).mp h))]

theorem some_eq_none_iff_of_not {α : Type} (a : α) (P : Prop) (h : ¬ P) :
    (some a = none ↔ P) :=
  ⟨fun e => absurd e (Option.some_ne_none a), fun p => absurd p h⟩

/-- The callback crashes on a string exactly when it plots it and the string
has fewer than three blanks. -/
theorem handleStr_none_iff (str : CString) (st : SubState × Bool) :
    handleStr str st = none ↔ malformedData str := by
  unfold handleStr malformedData plotted
  by_cases hd : "data".toList <+: str
  · rw [if_pos ((data_prefix_iff str).mpr hd)]
    by_cases ha : "Alive".toList <:+: str
    · rw [if_pos ((strstr_isSome_iff _ _).mpr ha)]
      have hp := plotData_isSome_iff str st.1
      cases hplot : plotData str st.1 with
      | none =>
        rw [hplot] at hp
        simp only [Option.map_none', true_iff]
        refine ⟨⟨hd, ha⟩, ?_⟩
        by_contra hc
        exact absurd (hp.mpr (by omega)) (by simp)
      | some s1 =>
        rw [hplot] at hp
        have h3 := hp.mp rfl
        exact some_eq_none_iff_of_not _ _ (fun h => by omega)
    · rw [if_neg (fun h => ha ((strstr_isSome_iff _ _).mp h))]
      exact some_eq_none_iff_of_not _ _ (fun h => ha h.1.2)
  · rw [if_neg (fun h => hd ((data_prefix_iff str).mp h))]
    split_ifs <;> exact ⟨fun e => absurd e (by simp), fun p => absurd p.1.1 hd⟩

/-- What a step of the chain does to `exitSubPub` and to the disconnect
count: the flag is raised exactly by the string `_EOF_`, and nothing is
disconnected inside the loop. -/
theorem handleStr_exit (str : CString) (st st1 : SubState × Bool)
    (hs : ∀ c ∈ str, c ≠ NUL) (h : handleStr str st = some st1) :
    st1.2 = (st.2 || decide (str = "_EOF_".toList))
    ∧ st1.1.disconnects = st.1.disconnects := by
  unfold handleStr at h
  by_cases hd : "data".toList <+: str
  · have hne : decide (str = "_EOF_".toList) = false := by
      apply decide_eq_false
      intro he; rw [he] at hd; revert hd; decide
    rw [hne]
    rw [if_pos ((data_prefix_iff str).mpr hd)] at h
    by_cases ha : (strstr str "Alive".toList).isSome = true
    · rw [if_pos ha] at h
      unfold plotData at h
      cases h1 : index str ' ' with
      | none => rw [h1] at h; simp at h
      | some i =>
        rw [h1] at h
        simp only at h
        cases h2 : index (List.drop (i + 1) str) ' ' with
        | none => rw [h2] at h; simp at h
        | some j =>
          rw [h2] at h
          simp only at h
          cases h3 : index (List.drop (j + 1) (List.drop (i + 1) str)) ' ' with
          | none => rw [h3] at h; simp at h
          | some k =>
            rw [h3] at h
            simp only [Option.map_some', Option.some.injEq] at h
            rw [← h]
            simp [glRecti]
    · rw [if_neg ha, Option.some.injEq] at h
      rw [← h]; simp
  · rw [if_neg (fun h => hd ((data_prefix_iff str).mp h))] at h
    by_cases hsw : "swap".toList <+: str
    · have hne : decide (str = "_EOF_".toList) = false := by
        apply decide_eq_false
        intro he; rw [he] at hsw; revert hsw; decide
      rw [hne]
      rw [if_pos ((swap_prefix_iff str).mpr hsw), Option.some.injEq] at h
      rw [← h]; simp [glutSwapBuffers]
    · rw [if_neg (fun h => hsw ((swap_prefix_iff str).mp h))] at h
      by_cases hcl : "clear".toList <+: str
      · have hne : decide (str = "_EOF_".toList) = false := by
          apply decide_eq_false
          intro he; rw [he] at hcl; revert hcl; decide
        rw [hne]
        rw [if_pos ((clear_prefix_iff str).mpr hcl), Option.some.injEq] at h
        rw [← h]; simp [glClear]
      · rw [if_neg (fun h => hcl ((clear_prefix_iff str).mp h))] at h
        by_cases he : str = "_EOF_".toList
        · rw [if_pos ((eof_iff str hs).mpr he), Option.some.injEq] at h
          rw [decide_eq_true he, ← h]; simp
        · rw [if_neg (fun h => he ((eof_iff str hs).mp h)), Option.some.injEq] at h
          rw [decide_eq_false he, ← h]; simp

theorem handleStr_message (st : SubState × Bool) :
    handleStr (c_str "message".toList) st = some st :=
  handleStr_unrecognized _ st (c_str_no_NUL _) (by decide)

theorem handleStr_channel (st : SubState × Bool) :
    handleStr (c_str "sscpactest".toList) st = some st :=
  handleStr_unrecognized _ st (c_str_no_NUL _) (by decide)

/-- A delivery runs the chain on the published text only: the two leading
elements of the reply take no branch. -/
theorem deliver_eq (m : CString) (s : SubState) :
    deliver m s =
      match handleStr (c_str m) ({ s with init := false }, false) with
      | none => none
      | some (s1, exitSubPub) =>
        if exitSubPub then some (redisAsyncDisconnect s1) else some s1 := by
  simp only [deliver, SubscribeCallback, pubsubMessage, handleElements, handleStr_message,
    handleStr_channel]
  cases handleStr (c_str m) ({ s with init := false }, false) with
  | none => rfl
  | some r => rfl

/-! ## Theorems: data messages, malformed messages, unrecognized messages -/

theorem sprintf_data_eq (x y : Int) : sprintf_data x y = dataMessage x y "Alive".toList := by
  simp [sprintf_data, dataMessage]

theorem dataMessage_no_NUL (x y : Int) (status : CString) (hs : ∀ c ∈ status, c ≠ NUL) :
    ∀ c ∈ dataMessage x y status, c ≠ NUL := by
  intro c hc
  simp only [dataMessage, List.mem_append, List.mem_cons] at hc
  rcases hc with h | h | h | h | h | h | h
  · revert c; decide
  · rw [h]; decide
  · exact decimalByte_ne_NUL c (fmtInt_bytes x c h)
  · rw [h]; decide
  · exact decimalByte_ne_NUL c (fmtInt_bytes y c h)
  · rw [h]; decide
  · exact hs c h

theorem dataNoStatus_no_NUL (x y : Int) : ∀ c ∈ dataNoStatus x y, c ≠ NUL := by
  intro c hc
  simp only [dataNoStatus, List.mem_append, List.mem_cons] at hc
  rcases hc with h | h | h | h | h
  · revert c; decide
  · rw [h]; decide
  · exact decimalByte_ne_NUL c (fmtInt_bytes x c h)
  · rw [h]; decide
  · exact decimalByte_ne_NUL c (fmtInt_bytes y c h)

theorem alive_not_in_dataNoStatus (x y : Int) : ¬ "Alive".toList <:+: dataNoStatus x y := by
  have hA : "Alive".toList = 'A' :: "live".toList := rfl
  have hd : dataNoStatus x y
      = ("data".toList ++ ' ' :: (fmtInt x ++ ' ' :: fmtInt y)) ++ [] := by
    simp [dataNoStatus]
  rw [hd, hA, infix_append_of_head_not_mem]
  · intro h
    have := List.IsInfix.length_le h
    simp at this
  · intro c hc
    simp only [List.mem_append, List.mem_cons] at hc
    rcases hc with h | h | h | h | h
    · revert c; decide
    · rw [h]; decide
    · exact decimalByte_ne_A c (fmtInt_bytes x c h)
    · rw [h]; decide
    · exact decimalByte_ne_A c (fmtInt_bytes y c h)

theorem deliver_dataMessage (x y : Int) (status : CString) (s : SubState)
    (hx : drawable x) (hy : drawable y) (hs : ∀ c ∈ status, c ≠ NUL) :
    deliver (dataMessage x y status) s =
      some (if "Alive".toList <:+: status then
          { s with init := false, back := cellRect x y :: s.back }
        else { s with init := false }) := by
  rw [deliver_eq, c_str_of_no_NUL _ (dataMessage_no_NUL x y status hs),
    handleStr_dataMessage x y status _ hx hy]
  by_cases h : "Alive".toList <:+: status
  · rw [if_pos h, if_pos h]; rfl
  · rw [if_neg h, if_neg h]; rfl

theorem deliver_dataNoStatus (x y : Int) (s : SubState) :
    deliver (dataNoStatus x y) s = some { s with init := false } := by
  rw [deliver_eq, c_str_of_no_NUL _ (dataNoStatus_no_NUL x y)]
  have hd : strncmp "data".toList (dataNoStatus x y) 4 = 0 :=
    (data_prefix_iff _).mpr (List.prefix_append _ _)
  have ha : ¬ (strstr (dataNoStatus x y) "Alive".toList).isSome = true :=
    fun h => alive_not_in_dataNoStatus x y ((strstr_isSome_iff _ _).mp h)
  unfold handleStr
  rw [if_pos hd, if_neg ha]
  rfl

/-- C7, as the code has it: on a message `data <x> <y> <status>` with decimal
integers `x`, `y` (in the range where the `int` arithmetic of the drawing does
not overflow), `SubscribeCallback` draws the cell `(x, y)` if and only if the
status contains `Alive` as a substring, and otherwise draws nothing; on a
message `data <x> <y>` with no status token it draws nothing. -/
theorem SubscribeCallback_draws_iff_status_contains_Alive (x y : Int) (status : CString)
    (s : SubState) (hx : drawable x) (hy : drawable y) (hs : ∀ c ∈ status, c ≠ NUL) :
    (∃ s1, deliver (dataMessage x y status) s = some s1 ∧ s1.front = s.front ∧
      ("Alive".toList <:+: status → s1.back = cellRect x y :: s.back) ∧
      (¬ "Alive".toList <:+: status → s1.back = s.back))
    ∧ ∃ s2, deliver (dataNoStatus x y) s = some s2 ∧ s2.back = s.back ∧ s2.front = s.front := by
  refine ⟨⟨_, deliver_dataMessage x y status s hx hy hs, ?_, ?_, ?_⟩,
    ⟨_, deliver_dataNoStatus x y s, rfl, rfl⟩⟩
  · by_cases h : "Alive".toList <:+: status
    · rw [if_pos h]
    · rw [if_neg h]
  · intro h; rw [if_pos h]
  · intro h; rw [if_neg h]

/-- Witness of C7 for the publisher's own message `data 99 84 Alive`. -/
theorem SubscribeCallback_draws_iff_status_contains_Alive_witness :
    drawable 99 ∧ drawable 84 ∧
    ∃ s1, deliver (dataMessage 99 84 "Alive".toList) SubState.start = some s1 ∧
      s1.back = [cellRect 99 84] := by
  obtain ⟨⟨s1, h1, _, h3, _⟩, _⟩ :=
    SubscribeCallback_draws_iff_status_contains_Alive 99 84 "Alive".toList SubState.start
      (by decide) (by decide) (by decide)
  exact ⟨by decide, by decide, s1, h1, h3 (by decide)⟩

/-- C7 as stated fails: the status token `NotAlive` is not `Alive`, yet the
message `data 1 2 NotAlive` makes the callback draw the cell `(1, 2)`. -/
theorem SubscribeCallback_draws_on_NotAlive :
    "NotAlive".toList ≠ "Alive".toList
    ∧ dataMessage 1 2 "NotAlive".toList = "data 1 2 NotAlive".toList
    ∧ (deliver "data 1 2 NotAlive".toList SubState.start).map (fun s => s.back)
        = some [cellRect 1 2] := by
  decide

/-- C8 fails on the code: the message `data 1 Alive` starts with `data` and
contains `Alive`, so it is plotted; the second `index` for a blank returns
`NULL`, which line 107 writes through.  The message `dataAlive` has no blank
at all and fails at the first `index`.  Both calls crash. -/
theorem SubscribeCallback_crashes_on_short_data :
    index (List.drop 7 "data 1 Alive".toList) ' ' = none
    ∧ deliver "data 1 Alive".toList SubState.start = none
    ∧ index "dataAlive".toList ' ' = none
    ∧ deliver "dataAlive".toList SubState.start = none := by
  decide

/-- A delivery crashes exactly on a malformed `data` message. -/
theorem deliver_none_iff (m : CString) (s : SubState) :
    deliver m s = none ↔ malformedData (c_str m) := by
  rw [deliver_eq, ← handleStr_none_iff (c_str m) ({ s with init := false }, false)]
  cases handleStr (c_str m) ({ s with init := false }, false) with
  | none => simp
  | some r =>
    obtain ⟨s1, e⟩ := r
    cases e <;> simp

theorem deliver_unrecognized (u : CString) (s : SubState) (hu : unrecognized (c_str u)) :
    deliver u s = some { s with init := false } := by
  rw [deliver_eq, handleStr_unrecognized _ _ (c_str_no_NUL u) hu]
  rfl

/-- A delivery does not depend on the static `init` it finds. -/
theorem deliver_init (m : CString) (s : SubState) :
    deliver m { s with init := false } = deliver m s := by
  rw [deliver_eq, deliver_eq]

theorem deliverAll_append (pre post : List CString) (s : SubState) :
    deliverAll (pre ++ post) s =
      match deliverAll pre s with
      | none => none
      | some s1 => deliverAll post s1 := by
  induction pre generalizing s with
  | nil => rfl
  | cons m rest ih =>
    simp only [List.cons_append, deliverAll]
    cases deliver m s with
    | none => rfl
    | some s1 => exact ih s1

theorem deliverAll_init_visible (post : List CString) (s : SubState) :
    (deliverAll post { s with init := false }).map SubState.visible
      = (deliverAll post s).map SubState.visible := by
  cases post with
  | nil => rfl
  | cons m rest => simp only [deliverAll, deliver_init]

/-- Removing an unrecognized message from a stream changes nothing visible,
whatever the rest of the stream is. -/
theorem deliverAll_skip_unrecognized (pre post : List CString) (u : CString) (s : SubState)
    (hu : unrecognized (c_str u)) :
    (deliverAll (pre ++ u :: post) s).map SubState.visible
      = (deliverAll (pre ++ post) s).map SubState.visible := by
  rw [deliverAll_append, deliverAll_append]
  cases deliverAll pre s with
  | none => rfl
  | some s1 =>
    simp only [deliverAll, deliver_unrecognized u s1 hu]
    exact deliverAll_init_visible post s1

theorem deliver_validData (m : CString) (s : SubState) (h : validData m) :
    ∃ x y : Int, drawable x ∧ drawable y ∧ m = sprintf_data x y ∧
      deliver m s = some { s with init := false, back := cellRect x y :: s.back } := by
  obtain ⟨x, y, hx, hy, rfl⟩ := h
  refine ⟨x, y, hx, hy, rfl, ?_⟩
  rw [sprintf_data_eq, deliver_dataMessage x y _ s hx hy (by decide), if_pos (by decide)]

/-- A stream of valid `data` messages is processed to the end. -/
theorem deliverAll_validData (ms : List CString) (s : SubState)
    (h : ∀ m ∈ ms, validData m) : ∃ s1, deliverAll ms s = some s1 := by
  induction ms generalizing s with
  | nil => exact ⟨s, rfl⟩
  | cons m rest ih =>
    obtain ⟨x, y, _, _, _, hd⟩ := deliver_validData m s (h m (List.mem_cons_self _ _))
    simp only [deliverAll, hd]
    exact ih _ (fun m hm => h m (List.mem_cons_of_mem _ hm))

/-- C9, as the code has it: for every stream of valid `data` messages and
every message `u` that does not begin with `data`, `swap` or `clear` and is not
`_EOF_`, processing the stream with `u` inserted at any position runs to the
end, as does processing the stream without `u`, and both leave the same set of
drawn cells (indeed the same two buffers). -/
theorem unrecognized_message_keeps_drawn_cells (pre post : List CString) (u : CString)
    (s : SubState) (hu : unrecognized (c_str u)) (hv : ∀ m ∈ pre ++ post, validData m) :
    ∃ s1 s2, deliverAll (pre ++ u :: post) s = some s1
      ∧ deliverAll (pre ++ post) s = some s2
      ∧ s1.back = s2.back ∧ s1.front = s2.front
      ∧ ∀ x y, cellDrawn s1.back x y ↔ cellDrawn s2.back x y := by
  obtain ⟨s2, h2⟩ := deliverAll_validData (pre ++ post) s hv
  have hskip := deliverAll_skip_unrecognized pre post u s hu
  rw [h2] at hskip
  cases h1 : deliverAll (pre ++ u :: post) s with
  | none => rw [h1] at hskip; simp at hskip
  | some s1 =>
    rw [h1] at hskip
    have hvis : s1.visible = s2.visible := by simpa using hskip
    have hb : s1.back = s2.back := congrArg Prod.fst hvis
    have hf : s1.front = s2.front := congrArg (fun p => p.2.1) hvis
    exact ⟨s1, s2, rfl, h2, hb, hf, fun x y => by unfold cellDrawn; rw [hb]⟩

theorem validData_sprintf (x y : Int) (hx : drawable x) (hy : drawable y) :
    validData (sprintf_data x y) := ⟨x, y, hx, hy, rfl⟩

/-- Witness of C9: the message `hello` between `data 1 2 Alive` and
`data 3 4 Alive`. -/
theorem unrecognized_message_keeps_drawn_cells_witness :
    unrecognized (c_str "hello".toList) ∧
    ∃ s1 s2,
      deliverAll ([sprintf_data 1 2] ++ "hello".toList :: [sprintf_data 3 4]) SubState.start
        = some s1
      ∧ deliverAll ([sprintf_data 1 2] ++ [sprintf_data 3 4]) SubState.start = some s2
      ∧ s1.back = s2.back := by
  have hv : ∀ m ∈ [sprintf_data 1 2] ++ [sprintf_data 3 4], validData m := by
    intro m hm
    simp only [List.mem_append, List.mem_singleton] at hm
    rcases hm with h | h
    · rw [h]; exact validData_sprintf 1 2 (by decide) (by decide)
    · rw [h]; exact validData_sprintf 3 4 (by decide) (by decide)
  obtain ⟨s1, s2, h1, h2, hb, _, _⟩ :=
    unrecognized_message_keeps_drawn_cells [sprintf_data 1 2] [sprintf_data 3 4]
      "hello".toList SubState.start (by decide) hv
  exact ⟨by decide, s1, s2, h1, h2, hb⟩

/-- C9 as stated fails: the command token of the message `clearly` is none of
`clear`, `data`, `swap`, `_EOF_`, but the callback compares only the first
five bytes with `clear` and clears the back buffer: after `data 1 2 Alive`
the cell `(1, 2)` is drawn, after `data 1 2 Alive`, `clearly` nothing is. -/
theorem unrecognized_token_clears_surface :
    "clearly".toList ∉ ["clear".toList, "data".toList, "swap".toList, "_EOF_".toList]
    ∧ ' ' ∉ "clearly".toList
    ∧ (deliverAll [sprintf_data 1 2] SubState.start).map (fun s => s.back)
        = some [cellRect 1 2]
    ∧ (deliverAll [sprintf_data 1 2, "clearly".toList] SubState.start).map (fun s => s.back)
        = some [] := by
  decide

/-! ## Theorems: disconnects -/

theorem handleElements_spec (elems : List (Option ReplyElement)) :
    ∀ st : SubState × Bool, ¬ batchMalformed elems →
      ∃ st1, handleElements elems st = some st1
        ∧ st1.2 = (st.2 || batchHasEOF elems)
        ∧ st1.1.disconnects = st.1.disconnects := by
  induction elems with
  | nil => intro st _; exact ⟨st, rfl, by simp [batchHasEOF], rfl⟩
  | cons e rest ih =>
    intro st hm
    have hrest : ¬ batchMalformed rest := by
      rintro ⟨e1, he1, str, hstr, hmal⟩
      exact hm ⟨e1, List.mem_cons_of_mem _ he1, str, hstr, hmal⟩
    cases e with
    | none =>
      obtain ⟨st1, h1, h2, h3⟩ := ih st hrest
      exact ⟨st1, by simp only [handleElements, h1], by
        rw [h2]; simp [batchHasEOF, elemText], h3⟩
    | some rp =>
      cases hstr : rp.str with
      | none =>
        obtain ⟨st1, h1, h2, h3⟩ := ih st hrest
        exact ⟨st1, by simp only [handleElements, hstr, h1], by
          rw [h2]; simp [batchHasEOF, elemText, hstr], h3⟩
      | some bytes =>
        have hnm : ¬ malformedData (c_str bytes) := fun hmal =>
          hm ⟨some rp, List.mem_cons_self _ _, c_str bytes, by simp [elemText, hstr], hmal⟩
        cases hh : handleStr (c_str bytes) st with
        | none => exact absurd ((handleStr_none_iff _ _).mp hh) hnm
        | some st0 =>
          obtain ⟨e0, d0⟩ := handleStr_exit _ st st0 (c_str_no_NUL bytes) hh
          obtain ⟨st1, h1, h2, h3⟩ := ih st0 hrest
          refine ⟨st1, by simp only [handleElements, hstr, hh, h1], ?_, by rw [h3, d0]⟩
          rw [h2, e0]
          simp only [batchHasEOF, List.any_cons, elemText, hstr, Option.map_some', eofMsg,
            Option.some.injEq, Bool.or_assoc]

/-- For a batch with no malformed `data` message the callback returns, and it
has disconnected once if the batch holds `_EOF_` and not at all otherwise. -/
theorem SubscribeCallback_disconnects (elems : List (Option ReplyElement)) (s : SubState)
    (h : ¬ batchMalformed elems) :
    ∃ s1, SubscribeCallback (some { element := some elems }) s = some s1
      ∧ s1.disconnects = s.disconnects + (if batchHasEOF elems = true then 1 else 0) := by
  obtain ⟨st1, h1, h2, h3⟩ := handleElements_spec elems ({ s with init := false }, false) h
  obtain ⟨s1, e⟩ := st1
  simp only [Bool.false_or] at h2
  simp only [SubscribeCallback, h1]
  cases hb : batchHasEOF elems with
  | true =>
    rw [hb] at h2
    subst h2
    exact ⟨_, rfl, by simp [redisAsyncDisconnect]; exact h3⟩
  | false =>
    rw [hb] at h2
    subst h2
    exact ⟨_, rfl, by simpa using h3⟩

/-- Why the batches above exclude malformed `data` strings: were a single
reply to hold both `_EOF_` and `data 1 Alive`, the first would raise
`exitSubPub` and the second would make the loop write through a `NULL`
pointer before the disconnect of line 132.  A reply to the subscription holds
one published text only. -/
theorem SubscribeCallback_eof_batch_crashes :
    batchHasEOF [some { str := some "_EOF_".toList }, some { str := some "data 1 Alive".toList }]
      = true
    ∧ SubscribeCallback
        (some { element := some [some { str := some "_EOF_".toList },
                                 some { str := some "data 1 Alive".toList }] })
        SubState.start = none := by
  decide

theorem handleStr_eof (st : SubState × Bool) : handleStr eofMsg st = some (st.1, true) := by
  unfold handleStr eofMsg
  rw [if_neg (by decide), if_neg (by decide), if_neg (by decide), if_pos (by decide)]

/-- The reply of a published `_EOF_`: the callback returns and has
disconnected once. -/
theorem deliver_eof (payload : CString) (s : SubState) (h : c_str payload = eofMsg) :
    deliver payload s = some { s with init := false, disconnects := s.disconnects + 1 } := by
  rw [deliver_eq, h, handleStr_eof]
  rfl

/-- The reply of any other published text: the callback either crashes in
the loop, on a malformed `data` string, or returns without a disconnect. -/
theorem deliver_not_eof (payload : CString) (s : SubState) (h : c_str payload ≠ eofMsg) :
    (malformedData (c_str payload) ∧ deliver payload s = none)
    ∨ ∃ s1, deliver payload s = some s1 ∧ s1.disconnects = s.disconnects := by
  by_cases hm : malformedData (c_str payload)
  · exact Or.inl ⟨hm, (deliver_none_iff payload s).mpr hm⟩
  · right
    rw [deliver_eq]
    cases hh : handleStr (c_str payload) ({ s with init := false }, false) with
    | none => exact absurd ((handleStr_none_iff _ _).mp hh) hm
    | some st1 =>
      obtain ⟨he, hd⟩ := handleStr_exit _ _ st1 (c_str_no_NUL payload) hh
      obtain ⟨s1, e⟩ := st1
      have hne : decide (c_str payload = "_EOF_".toList) = false := decide_eq_false h
      simp only [Bool.false_or, hne] at he
      subst he
      exact ⟨s1, rfl, hd⟩

/-- C10: for every reply in which a published message arrives (`"message"`,
the channel name, the published text), `SubscribeCallback` returns having
issued exactly one disconnect when the text is `_EOF_`, and issues no
disconnect when it is anything else: it then either returns with the
disconnect count unchanged or, on a malformed `data` string, crashes inside
the loop, before the only `redisAsyncDisconnect` of the function (line 132).
For every batch of elements none of which is such a malformed string the
callback returns having disconnected once if the batch holds `_EOF_`, however
many times, and not at all otherwise; so `clear`, `data` and `swap` messages
never cause a disconnect.  A `NULL` reply and a reply without elements
disconnect nothing. -/
theorem SubscribeCallback_disconnects_once_on_eof (payload : CString)
    (elems : List (Option ReplyElement)) (s : SubState) :
    (c_str payload = eofMsg →
      ∃ s1, deliver payload s = some s1 ∧ s1.disconnects = s.disconnects + 1)
    ∧ (c_str payload ≠ eofMsg →
      (malformedData (c_str payload) ∧ deliver payload s = none)
      ∨ ∃ s1, deliver payload s = some s1 ∧ s1.disconnects = s.disconnects)
    ∧ (¬ batchMalformed elems →
      ∃ s1, SubscribeCallback (some { element := some elems }) s = some s1
        ∧ s1.disconnects = s.disconnects + (if batchHasEOF elems = true then 1 else 0))
    ∧ SubscribeCallback none s = some s
    ∧ SubscribeCallback (some { element := none }) s = some { s with init := false } := by
  refine ⟨?_, deliver_not_eof payload s, SubscribeCallback_disconnects elems s, rfl, rfl⟩
  intro h
  exact ⟨_, deliver_eof payload s h, rfl⟩

theorem batchMalformed_nil : ¬ batchMalformed [] := by
  rintro ⟨e, he, _⟩
  simp at he

theorem batchMalformed_cons (e : Option ReplyElement) (rest : List (Option ReplyElement))
    (h1 : ∀ str, elemText e = some str → ¬ malformedData str) (h2 : ¬ batchMalformed rest) :
    ¬ batchMalformed (e :: rest) := by
  rintro ⟨e1, he1, str, hstr, hmal⟩
  rcases List.mem_cons.mp he1 with h | h
  · rw [h] at hstr
    exact h1 str hstr hmal
  · exact h2 ⟨e1, h, str, hstr, hmal⟩

/-- Witness of C10: the published texts `_EOF_` and `swap`, and a batch that
holds `_EOF_` twice and a `data` message. -/
theorem SubscribeCallback_disconnects_once_on_eof_witness :
    (∃ s1, deliver eofMsg SubState.start = some s1 ∧ s1.disconnects = 1)
    ∧ (∃ s1, deliver swapMsg SubState.start = some s1 ∧ s1.disconnects = 0)
    ∧ ∃ s1, SubscribeCallback
          (some { element := some [some { str := some eofMsg },
                                   some { str := some (sprintf_data 1 2) },
                                   some { str := some eofMsg }] })
          SubState.start = some s1
        ∧ s1.disconnects = 1 := by
  have hbatch : ¬ batchMalformed [some { str := some eofMsg },
      some { str := some (sprintf_data 1 2) }, some { str := some eofMsg }] := by
    refine batchMalformed_cons _ _ ?_ (batchMalformed_cons _ _ ?_
      (batchMalformed_cons _ _ ?_ batchMalformed_nil))
    · intro str hstr
      simp only [elemText, Option.map_some', Option.some.injEq] at hstr
      rw [← hstr]
      decide
    · intro str hstr
      simp only [elemText, Option.map_some', Option.some.injEq] at hstr
      rw [← hstr]
      decide
    · intro str hstr
      simp only [elemText, Option.map_some', Option.some.injEq] at hstr
      rw [← hstr]
      decide
  have h := SubscribeCallback_disconnects_once_on_eof eofMsg
    [some { str := some eofMsg }, some { str := some (sprintf_data 1 2) },
      some { str := some eofMsg }] SubState.start
  have h2 := SubscribeCallback_disconnects_once_on_eof swapMsg [] SubState.start
  refine ⟨?_, ?_, ?_⟩
  · obtain ⟨s1, h1, hd⟩ := h.1 (by decide)
    exact ⟨s1, h1, hd⟩
  · rcases h2.2.1 (by decide) with ⟨hm, _⟩ | ⟨s1, h1, hd⟩
    · exact absurd hm (by decide)
    · exact ⟨s1, h1, hd⟩
  · obtain ⟨s1, h1, hd⟩ := h.2.2.1 hbatch
    refine ⟨s1, h1, ?_⟩
    rw [hd]
    decide

/-! ## Theorems: the publisher's frames -/

theorem scanPublish_length (phase : Grid) :
    ∀ (cells : List (Nat × Nat)) (ioBuff : CString),
      (scanPublish phase cells ioBuff).length = cells.length := by
  intro cells
  induction cells with
  | nil => intro _; rfl
  | cons c rest ih => intro b; simp [scanPublish, ih]

theorem flatMap_row_length (h : Nat) :
    ∀ xs : List Nat,
      (xs.flatMap (fun x => (List.range h).map (fun y => (x, y)))).length = xs.length * h := by
  intro xs
  induction xs with
  | nil => simp
  | cons x rest ih =>
    rw [List.flatMap_cons, List.length_append, ih, List.length_map, List.length_range,
      List.length_cons]
    ring

theorem scanOrder_length : scanOrder.length = WIDTH * HEIGHT := by
  unfold scanOrder
  rw [flatMap_row_length, List.length_range]

/-- Every frame carries one publish per cell of the grid, alive or dead. -/
theorem frameData_length (phase : Grid) (ioBuff : CString) :
    (frameData phase ioBuff).length = WIDTH * HEIGHT := by
  unfold frameData
  rw [scanPublish_length, scanOrder_length]

/-- While no scanned cell rewrites the buffer to anything else, every publish
of the scan repeats the buffer. -/
theorem scanPublish_stale (phase : Grid) (m : CString) :
    ∀ cells : List (Nat × Nat),
      (∀ c ∈ cells, phase c.1 c.2 = Phase.Alive → sprintf_data (c.1 : Int) (c.2 : Int) = m) →
      scanPublish phase cells m = List.replicate cells.length m := by
  intro cells
  induction cells with
  | nil => intro _; rfl
  | cons c rest ih =>
    intro h
    have hc : cellBuffer phase m c = m := by
      unfold cellBuffer
      by_cases ha : phase c.1 c.2 = Phase.Alive
      · rw [if_pos ha]; exact h c (List.mem_cons_self _ _) ha
      · rw [if_neg ha]
    have hrest := ih (fun d hd => h d (List.mem_cons_of_mem _ hd))
    simp only [scanPublish, hc, hrest, List.length_cons, List.replicate_succ]

theorem scanOrder_head : ∃ rest, scanOrder = (0, 0) :: rest := by
  unfold scanOrder WIDTH HEIGHT
  rw [List.range_succ_eq_map, List.flatMap_cons, List.range_succ_eq_map, List.map_cons]
  exact ⟨_, rfl⟩

/-- With no living cell, every publish between `clear` and `swap` is the
text the buffer held on entry. -/
theorem frameData_allDead (ioBuff : CString) :
    frameData allDead ioBuff = List.replicate (WIDTH * HEIGHT) ioBuff := by
  unfold frameData
  rw [scanPublish_stale allDead ioBuff scanOrder (fun c _ h => by simp [allDead] at h),
    scanOrder_length]

/-- With the single living cell `(0, 0)`, every publish between `clear` and
`swap` is that cell's message. -/
theorem frameData_singleCell (ioBuff : CString) :
    frameData (singleCell 0 0) ioBuff = List.replicate (WIDTH * HEIGHT) (sprintf_data 0 0) := by
  have hlen := scanOrder_length
  obtain ⟨rest, hrest⟩ := scanOrder_head
  unfold frameData
  rw [hrest] at hlen ⊢
  have h0 : cellBuffer (singleCell 0 0) ioBuff (0, 0) = sprintf_data 0 0 := by
    simp [cellBuffer, singleCell]
  have hst := scanPublish_stale (singleCell 0 0) (sprintf_data 0 0) rest (by
    intro c _ ha
    have hc : c.1 = 0 ∧ c.2 = 0 := by
      by_contra hne
      simp [singleCell, hne] at ha
    rw [hc.1, hc.2]
    rfl)
  simp only [scanPublish, h0, hst]
  rw [← hlen, List.length_cons, List.replicate_succ]

theorem drawSpace_msgs (phase : Grid) (ioBuff : CString) (s : PubState) :
    (drawSpace phase ioBuff s).1 =
      frameMsgs phase ioBuff ++ (if s.life > s.lifeSpan then [eofMsg] else []) := by
  unfold drawSpace
  by_cases h : s.life > s.lifeSpan
  · simp [h]
  · simp [h]

theorem drawSpace_state (phase : Grid) (ioBuff : CString) (s : PubState) :
    (drawSpace phase ioBuff s).2 =
      { init := false, life := wrapInt32 (s.life + 1), lifeSpan := s.lifeSpan,
        leaving := if s.life > s.lifeSpan then true else s.leaving } := by
  unfold drawSpace
  by_cases h : s.life > s.lifeSpan
  · simp [h]
  · simp [h]

/-- The statics after `n` calls, while `life` has not overflowed and the
life span has not been exceeded before call `n`. -/
theorem pubStateAfter_spec (grids : Nat → Grid) (bufs : Nat → CString) (lifeSpan : Int)
    (h1 : lifeSpan < 2147483647) :
    ∀ n : Nat, (n : Int) ≤ lifeSpan + 1 →
      (pubStateAfter grids bufs lifeSpan n).life = n
      ∧ (pubStateAfter grids bufs lifeSpan n).lifeSpan = lifeSpan
      ∧ (pubStateAfter grids bufs lifeSpan n).leaving = false := by
  intro n
  induction n with
  | zero => intro _; exact ⟨rfl, rfl, rfl⟩
  | succ k ih =>
    intro hk
    obtain ⟨hl, hs, hv⟩ := ih (by push_cast at hk; omega)
    have hstate : pubStateAfter grids bufs lifeSpan (k + 1) =
        { init := false, life := wrapInt32 ((k : Int) + 1), lifeSpan := lifeSpan,
          leaving := if (k : Int) > lifeSpan then true else false } := by
      simp only [pubStateAfter, drawSpace_state, hl, hs, hv]
    rw [hstate]
    refine ⟨?_, rfl, ?_⟩
    · show wrapInt32 ((k : Int) + 1) = ((k + 1 : Nat) : Int)
      rw [wrapInt32_of_isInt32]
      · push_cast; ring
      · unfold isInt32; push_cast at hk; omega
    · show (if (k : Int) > lifeSpan then true else false) = false
      rw [if_neg]; push_cast at hk; omega

theorem publisherRun_leaving (grids : Nat → Grid) (bufs : Nat → CString) (fuel k : Nat)
    (s : PubState) (h : s.leaving = true) : publisherRun grids bufs fuel k s = [] := by
  cases fuel with
  | zero => rfl
  | succ f => simp [publisherRun, h]

/-- From call `k` on, with `r` calls left up to call `lifeSpan + 2`, the run
publishes the `r` remaining frames and then `_EOF_`. -/
theorem publisherRun_from (grids : Nat → Grid) (bufs : Nat → CString) (lifeSpan : Int)
    (h1 : lifeSpan < 2147483647) :
    ∀ (r k fuel : Nat), (k : Int) + (r : Int) + 1 = lifeSpan + 2 → r + 1 ≤ fuel →
      publisherRun grids bufs fuel k (pubStateAfter grids bufs lifeSpan k) =
        (List.range' k (r + 1)).flatMap (fun i => frameMsgs (grids i) (bufs i)) ++ [eofMsg] := by
  intro r
  induction r with
  | zero =>
    intro k fuel hk hf
    obtain ⟨f, rfl⟩ : ∃ f, fuel = f + 1 := ⟨fuel - 1, by omega⟩
    obtain ⟨hl, hs, hv⟩ := pubStateAfter_spec grids bufs lifeSpan h1 k (by omega)
    have hgt : (pubStateAfter grids bufs lifeSpan k).life
        > (pubStateAfter grids bufs lifeSpan k).lifeSpan := by rw [hl, hs]; omega
    have hleave : (drawSpace (grids k) (bufs k) (pubStateAfter grids bufs lifeSpan k)).2.leaving
        = true := by rw [drawSpace_state, if_pos hgt]
    simp only [publisherRun, hv, Bool.false_eq_true, if_false]
    rw [publisherRun_leaving _ _ _ _ _ hleave, drawSpace_msgs, if_pos hgt]
    simp
  | succ r ih =>
    intro k fuel hk hf
    obtain ⟨f, rfl⟩ : ∃ f, fuel = f + 1 := ⟨fuel - 1, by omega⟩
    obtain ⟨hl, hs, hv⟩ := pubStateAfter_spec grids bufs lifeSpan h1 k (by push_cast at hk; omega)
    have hle : ¬ (pubStateAfter grids bufs lifeSpan k).life
        > (pubStateAfter grids bufs lifeSpan k).lifeSpan := by
      rw [hl, hs]; push_cast at hk; omega
    have hnext : (drawSpace (grids k) (bufs k) (pubStateAfter grids bufs lifeSpan k)).2
        = pubStateAfter grids bufs lifeSpan (k + 1) := rfl
    simp only [publisherRun, hv, Bool.false_eq_true, if_false]
    rw [hnext, ih (k + 1) f (by push_cast at hk ⊢; omega) (by omega), drawSpace_msgs,
      if_neg hle, List.range'_succ k (r + 1), List.flatMap_cons]
    simp

/-- C5, as the code has it: with `0 ≤ lifeSpan < INT_MAX` and `life` starting
at 0, each of the calls 1 to `lifeSpan + 1` of `drawSpace` publishes its frame
and nothing after the `swap`, and does not ask to leave the main loop; call
`lifeSpan + 2` publishes its frame and then `_EOF_` as its last message, and
asks to leave; so a run in which `drawSpace` is called until it has asked to
leave publishes `lifeSpan + 2` frames followed by one `_EOF_`, after which
nothing is published. -/
theorem drawSpace_eof_after_lifeSpan_plus_two (grids : Nat → Grid) (bufs : Nat → CString)
    (lifeSpan : Int) (h0 : 0 ≤ lifeSpan) (h1 : lifeSpan < 2147483647) :
    (∀ n : Nat, 1 ≤ n → (n : Int) ≤ lifeSpan + 1 →
      nthCall grids bufs lifeSpan n = frameMsgs (grids (n - 1)) (bufs (n - 1))
      ∧ (pubStateAfter grids bufs lifeSpan n).leaving = false)
    ∧ nthCall grids bufs lifeSpan (lifeSpan.toNat + 2)
        = frameMsgs (grids (lifeSpan.toNat + 1)) (bufs (lifeSpan.toNat + 1)) ++ [eofMsg]
    ∧ (pubStateAfter grids bufs lifeSpan (lifeSpan.toNat + 2)).leaving = true
    ∧ ∀ fuel : Nat, lifeSpan.toNat + 2 ≤ fuel →
        publisherRun grids bufs fuel 0 (PubState.start lifeSpan) =
          (List.range (lifeSpan.toNat + 2)).flatMap (fun i => frameMsgs (grids i) (bufs i))
            ++ [eofMsg] := by
  have hL : ((lifeSpan.toNat : Nat) : Int) = lifeSpan := Int.toNat_of_nonneg h0
  refine ⟨?_, ?_, ?_, ?_⟩
  · intro n hn1 hn2
    obtain ⟨hl, hs, _⟩ := pubStateAfter_spec grids bufs lifeSpan h1 (n - 1) (by omega)
    refine ⟨?_, (pubStateAfter_spec grids bufs lifeSpan h1 n hn2).2.2⟩
    unfold nthCall
    rw [drawSpace_msgs, if_neg (by rw [hl, hs]; omega)]
    simp
  · obtain ⟨hl, hs, _⟩ :=
      pubStateAfter_spec grids bufs lifeSpan h1 (lifeSpan.toNat + 1) (by push_cast; omega)
    unfold nthCall
    rw [drawSpace_msgs]
    have e : lifeSpan.toNat + 2 - 1 = lifeSpan.toNat + 1 := rfl
    rw [e, if_pos (by rw [hl, hs]; push_cast; omega)]
  · obtain ⟨hl, hs, _⟩ :=
      pubStateAfter_spec grids bufs lifeSpan h1 (lifeSpan.toNat + 1) (by push_cast; omega)
    show (drawSpace _ _ (pubStateAfter grids bufs lifeSpan (lifeSpan.toNat + 1))).2.leaving = true
    rw [drawSpace_state, if_pos (by rw [hl, hs]; push_cast; omega)]
  · intro fuel hf
    have h := publisherRun_from grids bufs lifeSpan h1 (lifeSpan.toNat + 1) 0 fuel
      (by push_cast; omega) hf
    rw [List.range_eq_range']
    exact h

/-- Witness of C5 at the default life span 6. -/
theorem drawSpace_eof_after_lifeSpan_plus_two_witness :
    nthCall (fun _ => allDead) (fun _ => []) 6 8 = frameMsgs allDead [] ++ [eofMsg]
    ∧ nthCall (fun _ => allDead) (fun _ => []) 6 7 = frameMsgs allDead [] :=
  ⟨(drawSpace_eof_after_lifeSpan_plus_two (fun _ => allDead) (fun _ => []) 6
      (by decide) (by decide)).2.1,
   ((drawSpace_eof_after_lifeSpan_plus_two (fun _ => allDead) (fun _ => []) 6
      (by decide) (by decide)).1 7 (by decide) (by decide)).1⟩

theorem frameMsgs_allDead (ioBuff : CString) :
    frameMsgs allDead ioBuff
      = clearMsg :: List.replicate (WIDTH * HEIGHT) ioBuff ++ [swapMsg] := by
  have h := frameData_allDead ioBuff
  unfold frameData at h
  unfold frameMsgs
  rw [h]

/-- C5 as stated fails: with the default life span 6, call 7 (generation
`lifeSpan + 1`) publishes its frame, from `clear` to `swap`, and no `_EOF_`,
and does not ask to leave the main loop. -/
theorem drawSpace_no_eof_at_lifeSpan_plus_one :
    nthCall (fun _ => allDead) (fun _ => []) 6 7
      = clearMsg :: List.replicate (WIDTH * HEIGHT) [] ++ [swapMsg]
    ∧ eofMsg ∉ nthCall (fun _ => allDead) (fun _ => []) 6 7
    ∧ (pubStateAfter (fun _ => allDead) (fun _ => []) 6 7).leaving = false := by
  have hs := pubStateAfter_spec (fun _ => allDead) (fun _ => []) 6 (by decide)
  have h6 := hs 6 (by decide)
  have h7 := hs 7 (by decide)
  have hcall : nthCall (fun _ => allDead) (fun _ => []) 6 7
      = clearMsg :: List.replicate (WIDTH * HEIGHT) [] ++ [swapMsg] := by
    unfold nthCall
    rw [drawSpace_msgs, if_neg (by rw [h6.1, h6.2.1]; decide), frameMsgs_allDead]
    simp
  refine ⟨hcall, ?_, h7.2.2⟩
  rw [hcall]
  intro hmem
  simp only [List.cons_append, List.mem_cons, List.mem_append, List.mem_replicate,
    List.mem_singleton, List.not_mem_nil, or_false] at hmem
  rcases hmem with h | h | h
  · exact absurd h (by decide)
  · exact absurd h.2 (by decide)
  · exact absurd h (by decide)

/-! ## Theorems: frames on the wire and at the subscriber -/

theorem deliver_clear (s : SubState) :
    deliver clearMsg s = some { s with init := false, back := [] } := by
  rw [deliver_eq]
  rfl

theorem deliver_swap (s : SubState) :
    deliver swapMsg s = some { s with init := false, back := s.front, front := s.back } := by
  rw [deliver_eq]
  rfl

theorem deliver_sprintf_data (x y : Int) (s : SubState) (hx : drawable x) (hy : drawable y) :
    deliver (sprintf_data x y) s
      = some { s with init := false, back := cellRect x y :: s.back } := by
  rw [sprintf_data_eq, deliver_dataMessage x y _ s hx hy (by decide), if_pos (by decide)]

/-- A run of `data` messages draws the cells they name, latest first. -/
theorem deliverAll_data (cells : List (Int × Int)) :
    ∀ s : SubState, s.init = false → (∀ c ∈ cells, drawable c.1 ∧ drawable c.2) →
      deliverAll (cells.map (fun c => sprintf_data c.1 c.2)) s =
        some { s with back := (cells.map (fun c => cellRect c.1 c.2)).reverse ++ s.back } := by
  induction cells with
  | nil => intro s _ _; rfl
  | cons c rest ih =>
    intro s hi hd
    have hc := hd c (List.mem_cons_self _ _)
    simp only [List.map_cons, deliverAll, deliver_sprintf_data c.1 c.2 s hc.1 hc.2]
    rw [ih _ rfl (fun d hm => hd d (List.mem_cons_of_mem _ hm))]
    simp [hi]

theorem deliverAll_cons (m : CString) (rest : List CString) (s : SubState) :
    deliverAll (m :: rest) s =
      match deliver m s with
      | none => none
      | some s1 => deliverAll rest s1 := rfl

/-- A frame whose texts between `clear` and `swap` are the `data` messages of
`cells` puts exactly those cells on display. -/
theorem deliverAll_frame (cells : List (Int × Int)) (s : SubState)
    (hd : ∀ c ∈ cells, drawable c.1 ∧ drawable c.2) :
    deliverAll (clearMsg :: cells.map (fun c => sprintf_data c.1 c.2) ++ [swapMsg]) s =
      some { init := false, back := s.front,
             front := (cells.map (fun c => cellRect c.1 c.2)).reverse,
             disconnects := s.disconnects } := by
  rw [List.cons_append, deliverAll_cons, deliver_clear]
  simp only
  rw [deliverAll_append, deliverAll_data cells _ rfl hd]
  simp only [deliverAll, deliver_swap, List.append_nil]

theorem drawable_small (v : Int) (h0 : 0 ≤ v) (h1 : v < 100) : drawable v := by
  unfold drawable isInt32 CELL_SIZE
  omega

/-- C3 fails on the code: in a frame of the grid with no living cell, every
publish of line 87 repeats what `ioBuff` held on entry; when that is the text
`data 1 1 Alive` left by an earlier frame, the subscriber ends the round trip
with the cell `(1, 1)` on display although that cell is dead. -/
theorem roundtrip_draws_stale_cell :
    (drawSpace allDead (sprintf_data 1 1) (PubState.start 6)).1
      = clearMsg :: List.replicate (WIDTH * HEIGHT) (sprintf_data 1 1) ++ [swapMsg]
    ∧ allDead 1 1 = Phase.Dead
    ∧ ∃ s1, deliverAll (frameMsgs allDead (sprintf_data 1 1)) SubState.start = some s1
        ∧ cellDrawn s1.front 1 1 := by
  have hmsgs := frameMsgs_allDead (sprintf_data 1 1)
  refine ⟨?_, rfl, ?_⟩
  · rw [drawSpace_msgs, hmsgs, if_neg (by decide), List.append_nil]
  · have hrep : List.replicate (WIDTH * HEIGHT) (sprintf_data 1 1)
        = (List.replicate (WIDTH * HEIGHT) ((1 : Int), (1 : Int))).map
            (fun c => sprintf_data c.1 c.2) := by
      rw [List.map_replicate]
    rw [hmsgs, hrep, deliverAll_frame _ _ (by
      intro c hc
      rw [List.eq_of_mem_replicate hc]
      exact ⟨by decide, by decide⟩)]
    refine ⟨_, rfl, ?_⟩
    show cellRect 1 1 ∈ _
    rw [List.map_replicate, List.reverse_replicate]
    exact List.mem_replicate.mpr ⟨by decide, rfl⟩

theorem cell_count : WIDTH * HEIGHT = 10000 := by decide

/-- C4 fails on the code: for the grid whose only living cell is `(0, 0)`,
one call of `drawSpace` publishes 10000 messages between `clear` and `swap`,
every one of them `data 0 0 Alive`: one for the living cell and one for each
of the 9999 dead cells. -/
theorem drawSpace_publishes_for_dead_cells :
    (∀ x y, singleCell 0 0 x y = Phase.Alive ↔ x = 0 ∧ y = 0)
    ∧ sprintf_data 0 0 = "data 0 0 Alive".toList
    ∧ (drawSpace (singleCell 0 0) [] (PubState.start 6)).1
        = clearMsg :: List.replicate 10000 (sprintf_data 0 0) ++ [swapMsg]
    ∧ (frameData (singleCell 0 0) []).length = 10000 := by
  refine ⟨?_, by decide, ?_, ?_⟩
  · intro x y
    unfold singleCell
    by_cases h : x = 0 ∧ y = 0
    · simp [h]
    · simp [h]
  · rw [drawSpace_msgs, if_neg (by decide)]
    have h := frameData_singleCell []
    unfold frameData at h
    unfold frameMsgs
    rw [h, cell_count, List.append_nil]
  · rw [frameData_length, cell_count]

/-- C6 fails on the code: for the grid with no living cell and an `ioBuff`
that holds the empty string on entry, the 10000 messages between `clear` and
`swap` are empty strings, which are not `data` messages; and when `ioBuff`
holds `swap` on entry, 10000 `swap` messages stand inside the frame. -/
theorem drawSpace_frame_of_stale_buffer :
    (drawSpace allDead [] (PubState.start 6)).1
      = clearMsg :: List.replicate 10000 [] ++ [swapMsg]
    ∧ ¬ "data".toList <+: ([] : CString)
    ∧ (drawSpace allDead swapMsg (PubState.start 6)).1
      = clearMsg :: List.replicate 10000 swapMsg ++ [swapMsg] := by
  refine ⟨?_, by decide, ?_⟩
  · rw [drawSpace_msgs, if_neg (by decide), frameMsgs_allDead, cell_count, List.append_nil]
  · rw [drawSpace_msgs, if_neg (by decide), frameMsgs_allDead, cell_count, List.append_nil]

/-! ## Theorems: the round trip when the first scanned cell is alive -/

theorem scanPublish_latestAlive (phase : Grid) :
    ∀ (cells : List (Nat × Nat)) (b : Nat × Nat),
      scanPublish phase cells (cellMsg b) = (latestAlive phase cells b).map cellMsg := by
  intro cells
  induction cells with
  | nil => intro _; rfl
  | cons c rest ih =>
    intro b
    have hb : cellBuffer phase (cellMsg b) c
        = cellMsg (if phase c.1 c.2 = Phase.Alive then c else b) := by
      unfold cellBuffer
      by_cases h : phase c.1 c.2 = Phase.Alive
      · rw [if_pos h, if_pos h]; rfl
      · rw [if_neg h, if_neg h]
    simp only [scanPublish, latestAlive, List.map_cons, hb, ih]

theorem mem_latestAlive (phase : Grid) :
    ∀ (cells : List (Nat × Nat)) (b d : Nat × Nat),
      d ∈ latestAlive phase cells b → d = b ∨ (d ∈ cells ∧ phase d.1 d.2 = Phase.Alive) := by
  intro cells
  induction cells with
  | nil => intro b d h; simp [latestAlive] at h
  | cons c rest ih =>
    intro b d h
    simp only [latestAlive, List.mem_cons] at h
    by_cases hc : phase c.1 c.2 = Phase.Alive
    · simp only [hc, if_true] at h
      rcases h with h | h
      · exact Or.inr ⟨by rw [h]; exact List.mem_cons_self _ _, by rw [h]; exact hc⟩
      · rcases ih c d h with h1 | h1
        · exact Or.inr ⟨by rw [h1]; exact List.mem_cons_self _ _, by rw [h1]; exact hc⟩
        · exact Or.inr ⟨List.mem_cons_of_mem _ h1.1, h1.2⟩
    · simp only [hc, if_false] at h
      rcases h with h | h
      · exact Or.inl h
      · rcases ih b d h with h1 | h1
        · exact Or.inl h1
        · exact Or.inr ⟨List.mem_cons_of_mem _ h1.1, h1.2⟩

theorem alive_mem_latestAlive (phase : Grid) :
    ∀ (cells : List (Nat × Nat)) (b d : Nat × Nat),
      d ∈ cells → phase d.1 d.2 = Phase.Alive → d ∈ latestAlive phase cells b := by
  intro cells
  induction cells with
  | nil => intro b d h; simp at h
  | cons c rest ih =>
    intro b d hd ha
    simp only [latestAlive, List.mem_cons]
    rcases List.mem_cons.mp hd with h | h
    · left
      rw [← h, if_pos ha]
    · right
      exact ih _ d h ha

theorem mem_scanOrder (c : Nat × Nat) : c ∈ scanOrder ↔ c.1 < WIDTH ∧ c.2 < HEIGHT := by
  unfold scanOrder
  simp only [List.mem_flatMap, List.mem_map, List.mem_range]
  constructor
  · rintro ⟨x, hx, y, hy, rfl⟩
    exact ⟨hx, hy⟩
  · intro h
    exact ⟨c.1, h.1, c.2, h.2, rfl⟩

theorem cellRect_inj (x y u v : Int) (h : cellRect x y = cellRect u v) : x = u ∧ y = v := by
  unfold cellRect CELL_SIZE at h
  have h1 := congrArg Rect.x1 h
  have h2 := congrArg Rect.y1 h
  simp only at h1 h2
  omega

/-- When the cell `(0, 0)` is alive, the buffer is written before its first
publish, and the round trip of one frame puts on display exactly the living
cells of the grid, whatever `ioBuff` held on entry. -/
theorem roundtrip_of_first_cell_alive (phase : Grid) (ioBuff : CString) (s : SubState)
    (h00 : phase 0 0 = Phase.Alive) :
    ∃ s1, deliverAll (frameMsgs phase ioBuff) s = some s1 ∧
      ∀ x y : Int, cellDrawn s1.front x y ↔
        (0 ≤ x ∧ x < (WIDTH : Int) ∧ 0 ≤ y ∧ y < (HEIGHT : Int)
          ∧ phase x.toNat y.toNat = Phase.Alive) := by
  obtain ⟨rest, hrest⟩ := scanOrder_head
  have hmem : ∀ d : Nat × Nat, d ∈ (0, 0) :: latestAlive phase rest (0, 0) ↔
      (d.1 < WIDTH ∧ d.2 < HEIGHT) ∧ phase d.1 d.2 = Phase.Alive := by
    intro d
    rw [← mem_scanOrder, hrest]
    constructor
    · intro h
      rcases List.mem_cons.mp h with h | h
      · rw [h]; exact ⟨List.mem_cons_self _ _, h00⟩
      · rcases mem_latestAlive phase rest (0, 0) d h with h1 | h1
        · rw [h1]; exact ⟨List.mem_cons_self _ _, h00⟩
        · exact ⟨List.mem_cons_of_mem _ h1.1, h1.2⟩
    · rintro ⟨h1, h2⟩
      rcases List.mem_cons.mp h1 with h | h
      · rw [h]; exact List.mem_cons_self _ _
      · exact List.mem_cons_of_mem _ (alive_mem_latestAlive phase rest (0, 0) d h h2)
  have hframe : frameMsgs phase ioBuff
      = clearMsg :: (((0, 0) :: latestAlive phase rest (0, 0)).map
          (fun c : Nat × Nat => ((c.1 : Int), (c.2 : Int)))).map
            (fun c => sprintf_data c.1 c.2) ++ [swapMsg] := by
    unfold frameMsgs
    rw [hrest]
    have h0 : cellBuffer phase ioBuff (0, 0) = cellMsg (0, 0) := by
      unfold cellBuffer
      rw [if_pos h00]
      rfl
    simp only [scanPublish, h0, scanPublish_latestAlive, List.map_cons, List.map_map]
    rfl
  rw [hframe, deliverAll_frame _ _ (by
    intro c hc
    obtain ⟨d, hd, rfl⟩ := List.mem_map.mp hc
    have hr := (hmem d).mp hd
    have h1 : d.1 < 100 := hr.1.1
    have h2 : d.2 < 100 := hr.1.2
    exact ⟨drawable_small _ (by omega) (by omega), drawable_small _ (by omega) (by omega)⟩)]
  refine ⟨_, rfl, ?_⟩
  intro x y
  unfold cellDrawn
  simp only [List.mem_reverse, List.mem_map]
  constructor
  · rintro ⟨c, ⟨d, hd, rfl⟩, hc⟩
    obtain ⟨hx, hy⟩ := cellRect_inj _ _ _ _ hc
    have hr := (hmem d).mp hd
    simp only at hx hy
    subst hx; subst hy
    have h1 : d.1 < 100 := hr.1.1
    have h2 : d.2 < 100 := hr.1.2
    refine ⟨by omega, by unfold WIDTH; omega, by omega, by unfold HEIGHT; omega, ?_⟩
    simpa using hr.2
  · rintro ⟨hx0, hx1, hy0, hy1, ha⟩
    refine ⟨((x.toNat : Int), (y.toNat : Int)), ⟨(x.toNat, y.toNat), ?_, rfl⟩, ?_⟩
    · apply (hmem (x.toNat, y.toNat)).mpr
      refine ⟨⟨?_, ?_⟩, ha⟩
      · show x.toNat < WIDTH
        omega
      · show y.toNat < HEIGHT
        omega
    · simp only
      rw [Int.toNat_of_nonneg hx0, Int.toNat_of_nonneg hy0]

/-- The shape of what one call publishes: `clear`, one publish per cell,
`swap`, and `_EOF_` when the life span is exceeded.  When the cell `(0, 0)` is
alive, every publish between `clear` and `swap` is the `data` message of a
living cell of the grid. -/
theorem drawSpace_frame_shape (phase : Grid) (ioBuff : CString) (s : PubState) :
    (drawSpace phase ioBuff s).1 =
      clearMsg :: frameData phase ioBuff ++ [swapMsg]
        ++ (if s.life > s.lifeSpan then [eofMsg] else [])
    ∧ (frameData phase ioBuff).length = WIDTH * HEIGHT
    ∧ (phase 0 0 = Phase.Alive → ∀ m ∈ frameData phase ioBuff,
        ∃ c : Nat × Nat, c.1 < WIDTH ∧ c.2 < HEIGHT ∧ phase c.1 c.2 = Phase.Alive
          ∧ m = cellMsg c) := by
  refine ⟨?_, frameData_length phase ioBuff, ?_⟩
  · rw [drawSpace_msgs]
    rfl
  · intro h00 m hm
    obtain ⟨rest, hrest⟩ := scanOrder_head
    have h0 : cellBuffer phase ioBuff (0, 0) = cellMsg (0, 0) := by
      unfold cellBuffer
      rw [if_pos h00]
      rfl
    have hin : ∀ d ∈ rest, d.1 < WIDTH ∧ d.2 < HEIGHT := fun d hd =>
      (mem_scanOrder d).mp (by rw [hrest]; exact List.mem_cons_of_mem _ hd)
    unfold frameData at hm
    rw [hrest] at hm
    simp only [scanPublish, h0, scanPublish_latestAlive, List.mem_cons, List.mem_map] at hm
    rcases hm with h | ⟨d, hd, rfl⟩
    · exact ⟨(0, 0), by decide, by decide, h00, h⟩
    · rcases mem_latestAlive phase rest (0, 0) d hd with h1 | h1
      · rw [h1]; exact ⟨(0, 0), by decide, by decide, h00, rfl⟩
      · exact ⟨d, (hin d h1.1).1, (hin d h1.1).2, h1.2, rfl⟩

/-! ## Theorems: what the stale buffer publishes at each scan position -/

theorem staleText_zero (phase : Grid) (c : Nat × Nat) (rest : List (Nat × Nat))
    (ioBuff : CString) :
    staleText phase (c :: rest) ioBuff 0 = cellBuffer phase ioBuff c := by
  unfold staleText latestAliveUpTo cellBuffer
  by_cases h : phase c.1 c.2 = Phase.Alive
  · have ha : isAlive phase c = true := by simp [isAlive, h]
    simp [List.filter_cons, ha, h, cellMsg]
  · have ha : isAlive phase c = false := by simp [isAlive, h]
    simp [List.filter_cons, ha, h]

theorem staleText_succ (phase : Grid) (c : Nat × Nat) (rest : List (Nat × Nat))
    (ioBuff : CString) (i : Nat) :
    staleText phase (c :: rest) ioBuff (i + 1)
      = staleText phase rest (cellBuffer phase ioBuff c) i := by
  unfold staleText latestAliveUpTo cellBuffer
  rw [List.take_succ_cons, List.filter_cons]
  by_cases h : phase c.1 c.2 = Phase.Alive
  · have ha : isAlive phase c = true := by simp [isAlive, h]
    rw [if_pos ha, if_pos h, List.getLast?_cons]
    cases List.getLast? (List.filter (isAlive phase) (List.take (i + 1) rest)) with
    | none => rfl
    | some d => rfl
  · have ha : ¬ isAlive phase c = true := by simp [isAlive, h]
    rw [if_neg ha, if_neg h]

/-- Position by position, a scan publishes the message of the latest living
cell so far, and the entry content of the buffer before the first one. -/
theorem scanPublish_eq_staleText (phase : Grid) :
    ∀ (cells : List (Nat × Nat)) (ioBuff : CString),
      scanPublish phase cells ioBuff
        = (List.range cells.length).map (staleText phase cells ioBuff) := by
  intro cells
  induction cells with
  | nil => intro _; rfl
  | cons c rest ih =>
    intro ioBuff
    rw [List.length_cons, List.range_succ_eq_map, List.map_cons, List.map_map]
    simp only [scanPublish, staleText_zero, ih]
    congr 1
    apply List.map_congr_left
    intro i _
    simp only [Function.comp, staleText_succ]

/-- From one position to the next the text changes as the `if` statement of
lines 80-86 changes the buffer: a living cell publishes its own message, a
dead cell repeats the text of the position before it. -/
theorem staleText_step (phase : Grid) (cells : List (Nat × Nat)) (ioBuff : CString) (i : Nat) :
    staleText phase cells ioBuff (i + 1) =
      (cells[i + 1]?).elim (staleText phase cells ioBuff i)
        (cellBuffer phase (staleText phase cells ioBuff i)) := by
  unfold staleText latestAliveUpTo cellBuffer
  rw [List.take_succ (n := i + 1), List.filter_append, List.getLast?_append]
  cases hc : cells[i + 1]? with
  | none => simp
  | some c =>
    by_cases h : phase c.1 c.2 = Phase.Alive
    · have ha : isAlive phase c = true := by simp [isAlive, h]
      simp [List.filter_cons, ha, h, cellMsg]
    · have ha : isAlive phase c = false := by simp [isAlive, h]
      simp [List.filter_cons, ha, h]

theorem flatMap_row_eq (h : Nat) (hpos : 0 < h) :
    ∀ w : Nat, (List.range w).flatMap (fun x => (List.range h).map (fun y => (x, y)))
      = (List.range (w * h)).map (fun i => (i / h, i % h)) := by
  intro w
  induction w with
  | zero => simp
  | succ n ih =>
    rw [List.range_succ, List.flatMap_append, ih, Nat.succ_mul, List.range_add, List.map_append,
      List.map_map]
    congr 1
    simp only [List.flatMap_cons, List.flatMap_nil, List.append_nil]
    apply List.map_congr_left
    intro j hj
    have hj2 : j < h := List.mem_range.mp hj
    simp only [Function.comp]
    rw [Nat.mul_comm n h, Nat.mul_add_div hpos, Nat.mul_add_mod, Nat.div_eq_of_lt hj2,
      Nat.mod_eq_of_lt hj2]
    rfl

/-- The scan visits `x` in the outer loop and `y` in the inner one: position
`i` is the cell `(i / HEIGHT, i % HEIGHT)`. -/
theorem scanOrder_eq :
    scanOrder = (List.range (WIDTH * HEIGHT)).map (fun i => (i / HEIGHT, i % HEIGHT)) := by
  unfold scanOrder
  exact flatMap_row_eq HEIGHT (by decide) WIDTH

/-- C14: for every grid (and every entry content of `ioBuff`), one call of
`drawSpace` publishes `clear`, then exactly `WIDTH * HEIGHT` texts, then
`swap`; the text at scan position `i` belongs to the cell
`(i / HEIGHT, i % HEIGHT)` (`x` outer, `y` inner) and is the message
`data x' y' Alive` of the latest living cell `(x', y')` at or before position
`i` (the entry content of the buffer while there is none yet); so from one
position to the next the text changes as the `if` statement of lines 80-86
changes the buffer, and a dead cell repeats the text of the position before
it. -/
theorem drawSpace_stale_buffer (phase : Grid) (ioBuff : CString) (s : PubState) :
    (drawSpace phase ioBuff s).1
      = clearMsg :: frameData phase ioBuff ++ [swapMsg]
          ++ (if s.life > s.lifeSpan then [eofMsg] else [])
    ∧ (frameData phase ioBuff).length = WIDTH * HEIGHT
    ∧ scanOrder = (List.range (WIDTH * HEIGHT)).map (fun i => (i / HEIGHT, i % HEIGHT))
    ∧ frameData phase ioBuff
        = (List.range (WIDTH * HEIGHT)).map (staleText phase scanOrder ioBuff)
    ∧ ∀ i : Nat, staleText phase scanOrder ioBuff (i + 1) =
        (scanOrder[i + 1]?).elim (staleText phase scanOrder ioBuff i)
          (cellBuffer phase (staleText phase scanOrder ioBuff i)) := by
  refine ⟨?_, frameData_length phase ioBuff, scanOrder_eq, ?_, ?_⟩
  · rw [drawSpace_msgs]
    rfl
  · unfold frameData
    rw [scanPublish_eq_staleText, scanOrder_length]
  · intro i
    exact staleText_step phase scanOrder ioBuff i

/-! ## Theorems: the same `data` message twice -/

theorem atoi_fmtInt_wrap (v : Int) : atoi (fmtInt v) = wrapInt32 (clampLong v) := by
  unfold atoi
  rw [parseDecimal_fmtInt]

/-- The publisher's message for `(x, y)` draws one rectangle, whatever the
integers are. -/
theorem deliver_sprintf_data_any (x y : Int) (s : SubState) :
    deliver (sprintf_data x y) s
      = some { s with init := false, back := plottedRect x y :: s.back } := by
  have hplot : plotData (dataMessage x y "Alive".toList) { s with init := false }
      = some { s with init := false, back := plottedRect x y :: s.back } := by
    unfold dataMessage
    rw [plotData_fields _ _ _ _ _ (by decide) (fmtInt_no_space x) (fmtInt_no_space y),
      atoi_fmtInt_wrap, atoi_fmtInt_wrap]
    rfl
  rw [sprintf_data_eq, deliver_eq,
    c_str_of_no_NUL _ (dataMessage_no_NUL x y _ (by decide))]
  unfold handleStr
  rw [if_pos (data_prefix_dataMessage x y _),
    if_pos ((strstr_isSome_iff _ _).mpr ((alive_in_dataMessage x y _).mpr (by decide)))]
  simp only [hplot]
  rfl

/-- C11: for every state of the draw surface and every message
`data x y Alive`, `SubscribeCallback` processes the message once and twice in
succession without fault, and the second processing adds no cell: the back
buffer holds the same rectangles, hence the same drawn cells, after two
deliveries as after one, and the buffer on display is the same. -/
theorem data_message_idempotent (s : SubState) (x y : Int) :
    ∃ s1 s2, deliverAll [sprintf_data x y] s = some s1
      ∧ deliverAll [sprintf_data x y, sprintf_data x y] s = some s2
      ∧ (∀ r : Rect, r ∈ s2.back ↔ r ∈ s1.back)
      ∧ (∀ a b : Int, cellDrawn s2.back a b ↔ cellDrawn s1.back a b)
      ∧ s2.front = s1.front ∧ s2.disconnects = s1.disconnects := by
  refine ⟨{ s with init := false, back := plottedRect x y :: s.back },
    { s with init := false, back := plottedRect x y :: plottedRect x y :: s.back },
    ?_, ?_, ?_, ?_, rfl, rfl⟩
  · simp only [deliverAll, deliver_sprintf_data_any]
  · simp only [deliverAll, deliver_sprintf_data_any]
  · intro r
    simp only [List.mem_cons]
    tauto
  · intro a b
    unfold cellDrawn
    simp only [List.mem_cons]
    tauto

/-! ## Theorems: connection failure in `main` -/

/-- A context with its error flag set: both programs print the error and
return -1 without entering their loop. -/
theorem main_reports_connection_error (ctx : redisContext) (h : ctx.err ≠ 0) :
    PubGlife.main (some ctx) = some (MainOutcome.returned (errorText ctx) (-1))
    ∧ SubGlife.main (some ctx) = some (MainOutcome.returned (errorText ctx) (-1)) := by
  have hf : connectFailed (some ctx) = true := by simp [connectFailed, h]
  unfold PubGlife.main SubGlife.main
  simp only [hf, if_true, h, ne_eq, not_false_eq_true, and_self]

/-- A context without error: both programs go on into their loop. -/
theorem main_enters_loop (ctx : redisContext) (h : ctx.err = 0) :
    PubGlife.main (some ctx) = some MainOutcome.enteredLoop
    ∧ SubGlife.main (some ctx) = some MainOutcome.enteredLoop := by
  have hf : connectFailed (some ctx) = false := by simp [connectFailed, h]
  unfold PubGlife.main SubGlife.main
  simp [hf]

/-- C12 fails on the code when the connect call returns no context: the
outer test `c == NULL || c->err` sends both programs into the error branch,
whose first statement `if (c->err)` reads through the `NULL` pointer; neither
program reaches its `printf` or its `return -1`. -/
theorem main_dereferences_null_context :
    connectFailed none = true
    ∧ PubGlife.main none = none
    ∧ SubGlife.main none = none := by
  exact ⟨rfl, rfl, rfl⟩

/-! ## Theorems: publish failures -/

theorem publishAll_spec (ch : Channel) :
    ∀ (msgs : List CString) (w : Wire),
      publishAll ch w msgs
        = { calls := w.calls + msgs.length, sent := w.sent ++ accepted ch w.calls msgs } := by
  intro msgs
  induction msgs with
  | nil => intro w; simp [publishAll, accepted]
  | cons m rest ih =>
    intro w
    simp only [publishAll, redisCommand, ih, accepted, List.length_cons]
    by_cases h : ch w.calls = true
    · simp [h, Nat.add_assoc, Nat.add_comm 1]
    · simp [h, Nat.add_assoc, Nat.add_comm 1]

theorem publishAll_append (ch : Channel) :
    ∀ (a b : List CString) (w : Wire),
      publishAll ch w (a ++ b) = publishAll ch (publishAll ch w a) b := by
  intro a
  induction a with
  | nil => intro b w; rfl
  | cons m rest ih =>
    intro b w
    show publishAll ch (redisCommand ch w m).1 (rest ++ b) = _
    exact ih b _

theorem publishAll_cons (ch : Channel) (w : Wire) (m : CString) (rest : List CString) :
    publishAll ch w (m :: rest) = publishAll ch (redisCommand ch w m).1 rest := rfl

theorem publishAll_singleton (ch : Channel) (w : Wire) (m : CString) :
    publishAll ch w [m] = (redisCommand ch w m).1 := rfl

theorem accepted_cons_of_fail (ch : Channel) (n : Nat) (m : CString) (rest : List CString)
    (h : ch n = false) : accepted ch n (m :: rest) = accepted ch (n + 1) rest := by
  simp [accepted, h]

theorem scanPublishOn_eq (ch : Channel) (phase : Grid) :
    ∀ (cells : List (Nat × Nat)) (ioBuff : CString) (w : Wire),
      scanPublishOn ch phase cells ioBuff w = publishAll ch w (scanPublish phase cells ioBuff) := by
  intro cells
  induction cells with
  | nil => intro _ w; rfl
  | cons c rest ih => intro b w; simp only [scanPublishOn, scanPublish, publishAll, ih]

theorem frameOn_eq (ch : Channel) (phase : Grid) (ioBuff : CString) (w : Wire) :
    (redisCommand ch (scanPublishOn ch phase scanOrder ioBuff (redisCommand ch w clearMsg).1)
        swapMsg).1
      = publishAll ch w (frameMsgs phase ioBuff) := by
  unfold frameMsgs
  rw [List.cons_append, publishAll_cons, publishAll_append, ← scanPublishOn_eq,
    publishAll_singleton]

/-- On any channel `drawSpace` makes the publish calls it makes on a channel
that never fails, and leaves the same statics. -/
theorem drawSpaceOn_eq (ch : Channel) (phase : Grid) (ioBuff : CString) (s : PubState)
    (w : Wire) :
    drawSpaceOn ch phase ioBuff s w
      = (publishAll ch w (drawSpace phase ioBuff s).1, (drawSpace phase ioBuff s).2) := by
  unfold drawSpaceOn drawSpace
  by_cases h : s.life > s.lifeSpan
  · simp only [h, if_true]
    rw [frameOn_eq, publishAll_append, publishAll_singleton]
  · simp only [h, if_false]
    rw [frameOn_eq]

theorem publisherRunOn_eq (ch : Channel) (grids : Nat → Grid) (bufs : Nat → CString) :
    ∀ (fuel k : Nat) (s : PubState) (w : Wire),
      publisherRunOn ch grids bufs fuel k s w
        = publishAll ch w (publisherRun grids bufs fuel k s) := by
  intro fuel
  induction fuel with
  | zero => intro k s w; rfl
  | succ f ih =>
    intro k s w
    by_cases h : s.leaving = true
    · simp [publisherRunOn, publisherRun, h, publishAll]
    · simp only [publisherRunOn, publisherRun, h, Bool.false_eq_true, if_false, ih,
        drawSpaceOn_eq, publishAll_append]

theorem accepted_all (ch : Channel) :
    ∀ (msgs : List CString) (n : Nat), (∀ i, n ≤ i → ch i = true) → accepted ch n msgs = msgs := by
  intro msgs
  induction msgs with
  | nil => intro _ _; rfl
  | cons m rest ih =>
    intro n h
    simp only [accepted, h n (Nat.le_refl n), if_true]
    rw [ih (n + 1) (fun i hi => h i (by omega))]

/-- C13, as the code has it: `drawSpace` drops the outcome of every publish
call.  On every channel, whichever of its calls fail, one call of `drawSpace`
makes the same publish calls, in the same order, as on a channel that never
fails, and leaves the same statics (so it asks to leave the main loop only
when the life span is exceeded); a whole run does the same; and of the texts
of those calls the channel receives exactly the ones whose own call succeeds,
those after a failed call included. -/
theorem drawSpace_ignores_publish_failure (ch : Channel) (grids : Nat → Grid)
    (bufs : Nat → CString) (phase : Grid) (ioBuff : CString) (s : PubState) (w : Wire)
    (fuel k : Nat) :
    drawSpaceOn ch phase ioBuff s w
      = (publishAll ch w (drawSpace phase ioBuff s).1, (drawSpace phase ioBuff s).2)
    ∧ (drawSpaceOn ch phase ioBuff s w).1.calls = w.calls + (drawSpace phase ioBuff s).1.length
    ∧ (drawSpaceOn ch phase ioBuff s w).1.sent
        = w.sent ++ accepted ch w.calls (drawSpace phase ioBuff s).1
    ∧ (publisherRunOn ch grids bufs fuel k s w).calls
        = w.calls + (publisherRun grids bufs fuel k s).length
    ∧ (publisherRunOn ch grids bufs fuel k s w).sent
        = w.sent ++ accepted ch w.calls (publisherRun grids bufs fuel k s) := by
  refine ⟨drawSpaceOn_eq ch phase ioBuff s w, ?_, ?_, ?_, ?_⟩
  · rw [drawSpaceOn_eq, publishAll_spec]
  · rw [drawSpaceOn_eq, publishAll_spec]
  · rw [publisherRunOn_eq, publishAll_spec]
  · rw [publisherRunOn_eq, publishAll_spec]

/-- C13 as stated fails: on a channel whose first publish call (the `clear`)
fails and whose later calls succeed, one call of `drawSpace` for the grid with
the single living cell `(0, 0)` goes on to make all 10002 publish calls, and
the 10000 `data 0 0 Alive` messages and the `swap` are published after the
failed call; `drawSpace` does not ask to leave the main loop. -/
theorem drawSpace_publishes_after_failed_call :
    firstCallFails 0 = false
    ∧ (drawSpaceOn firstCallFails (singleCell 0 0) [] (PubState.start 6) Wire.start).1.calls
        = 10002
    ∧ (drawSpaceOn firstCallFails (singleCell 0 0) [] (PubState.start 6) Wire.start).1.sent
        = List.replicate 10000 (sprintf_data 0 0) ++ [swapMsg]
    ∧ (drawSpaceOn firstCallFails (singleCell 0 0) [] (PubState.start 6) Wire.start).2.leaving
        = false := by
  have hmsgs : (drawSpace (singleCell 0 0) [] (PubState.start 6)).1
      = clearMsg :: (List.replicate 10000 (sprintf_data 0 0) ++ [swapMsg]) := by
    rw [drawSpace_msgs, if_neg (by decide)]
    have h := frameData_singleCell []
    unfold frameData at h
    unfold frameMsgs
    rw [h, cell_count, List.append_nil, List.cons_append]
  have hok : ∀ i, 1 ≤ i → firstCallFails i = true := by
    intro i hi
    simp [firstCallFails]
    omega
  refine ⟨rfl, ?_, ?_, ?_⟩
  · rw [drawSpaceOn_eq, publishAll_spec, hmsgs]
    simp only [Wire.start, List.length_cons, List.length_append, List.length_replicate,
      List.length_singleton, List.length_nil]
  · rw [drawSpaceOn_eq, publishAll_spec, hmsgs]
    show [] ++ accepted firstCallFails 0 _ = _
    rw [List.nil_append, accepted_cons_of_fail firstCallFails 0 _ _ rfl,
      accepted_all firstCallFails _ 1 hok]
  · rw [drawSpaceOn_eq, drawSpace_state]
    rfl

end MSaaS
